import Mathlib

/-!
Verification development for the godot-wasm embedding core.

This file shallowly embeds, in Lean, the parts of the Rust source that the
claims under scrutiny are about:

* the import-graph instantiator of src/wasm_instance.rs
  (InstanceData::instantiate_wasm), including its per-call memoization of
  dependency-module instances;
* the store-lock save/restore discipline (InstanceData::acquire_store and
  InnerLock::release_store);
* the linear-memory access layer (read_memory, write_memory, the scalar
  get and put accessors, put_array, get_array);
* the resource limiter (MemoryLimit::memory_growing, table_growing);
* the one-shot instance initialization guard (WasmInstance::initialize_,
  built on OnceCell::get_or_try_init);
* the packed-array component adapters
  (src/godot_component/core/packed_array.rs);
* the object-registry array bridge registration
  (src/wasm_objregistry/funcs/array.rs).

Modelling conventions: machine integers become Nat (with explicit masks
where the code masks), fallible Rust code returns Except, floating-point
payloads are represented by their little-endian bit patterns (the code only
moves them through to_le_bytes / from_le_bytes, so bounds and layout are
unaffected), and Rust HashMap memoization becomes an association list whose
insert conses (lookup returns the most recent binding, as HashMap insert
overwrites).
-/

namespace GodotWasm

/-! ## Import graph instantiator (src/wasm_instance.rs, instantiate_wasm) -/

/-- A declared import of a core module, keyed by namespace (called module in
wasmtime) and name. Mirrors wasmtime ImportType as used by the loop in
InstanceData::instantiate_wasm. -/
structure ImportDecl where
  module : String
  name : String
deriving DecidableEq, Repr

/-- A compiled module as the instantiator sees it: variant tag (core = true
mirrors ModuleType::Core), declared imports, export names, and the
dependency table resolved at module-load time (namespace to dependency
module). The dependency table nests the dependency ModuleSpec directly,
mirroring the Gd WasmModule references held by ModuleData.imports; the id
field mirrors the stable per-module identity Gd instance_id used as memo
key. -/
inductive ModuleSpec : Type where
  | mk (id : Nat) (core : Bool) (imports : List ImportDecl)
      (deps : List (String × ModuleSpec)) (exports : List String) : ModuleSpec
deriving Repr

def ModuleSpec.id : ModuleSpec → Nat
  | .mk i _ _ _ _ => i

def ModuleSpec.core : ModuleSpec → Bool
  | .mk _ c _ _ _ => c

def ModuleSpec.imports : ModuleSpec → List ImportDecl
  | .mk _ _ im _ _ => im

def ModuleSpec.deps : ModuleSpec → List (String × ModuleSpec)
  | .mk _ _ _ d _ => d

def ModuleSpec.exports : ModuleSpec → List String
  | .mk _ _ _ _ e => e

mutual

/-- Ids of all strict dependency descendants of a module (the modules that a
run of the instantiator may memoize while instantiating it). -/
def subIds : ModuleSpec → List Nat
  | .mk _ _ _ deps _ => subIdsList deps

/-- Ids of all modules reachable through a dependency list, each listed with
its own subtree. -/
def subIdsList : List (String × ModuleSpec) → List Nat
  | [] => []
  | (_, d) :: r => d.id :: (subIds d ++ subIdsList r)

end

mutual

/-- The dependency graph is a DAG (spec section 3): no module identity occurs
among its own strict dependency descendants, recursively. -/
def acyclicb : ModuleSpec → Bool
  | .mk i _ _ deps _ => !decide (i ∈ subIdsList deps) && acyclicbList deps

def acyclicbList : List (String × ModuleSpec) → Bool
  | [] => true
  | (_, d) :: r => acyclicb d && acyclicbList r

end

/-- Lookup in a dependency table (module.imports.get in the Rust source). -/
def depLookup : List (String × ModuleSpec) → String → Option ModuleSpec
  | [], _ => none
  | (ns, d) :: r, s => if ns = s then some d else depLookup r s

/-- A live core instance as the resolver observes it: a fresh identity and
the export names of its module (get_export succeeds exactly on those). -/
structure InstanceW where
  key : Nat
  exports : List String
deriving DecidableEq, Repr

/-- Per-instantiation-call state: the already-instantiated memo (HashMap
InstanceId to InstanceWasm in the source; association list here, insert
conses so lookup sees the newest binding like HashMap insert) and a fresh
instance-identity counter. -/
structure InstState where
  memo : List (Nat × InstanceW)
  nextKey : Nat
deriving DecidableEq, Repr

/-- Association-list lookup used for the instantiation memo
(insts.get in the source). -/
def alookup : List (Nat × InstanceW) → Nat → Option InstanceW
  | [], _ => none
  | (k, v) :: r, id => if k = id then some v else alookup r id

/-- Keys currently bound in the memo. -/
def memoKeys (l : List (Nat × InstanceW)) : List Nat := l.map Prod.fst

/-- A resolved import value. Host, bridge and wasi externs are identified by
their provenance; depExport carries the identity of the dependency instance
whose export it is. -/
inductive ExternVal : Type where
  | hostFn (ns nm : String)
  | objreg (nm : String)
  | extref (nm : String)
  | wasiFn (ns nm : String)
  | depExport (instKey : Nat) (nm : String)
deriving DecidableEq, Repr

/-- Errors of the instantiator. The Rust code reports anyhow errors; the
constructors mirror the distinct bail sites of instantiate_wasm plus fuel
exhaustion, an artifact of the fuel-indexed embedding (the Rust recursion is
bounded only by the dependency graph depth). -/
inductive InstErr : Type where
  | outOfFuel
  | cannotInstantiateComponent
  | hostError
  | unknownImport (ns nm : String)
deriving DecidableEq, Repr

/-- Binding mode for object passing, from wasm_config::ExternBindingType as
matched by instantiate_wasm (None / Registry / Native). -/
inductive ExternBindingType : Type where
  | disabled
  | registry
  | native
deriving DecidableEq, Repr

/-- Modelled from the spec: the reserved namespace of the object-registry
bridge (OBJREGISTRY_MODULE, defined in wasm_util.rs which is outside src);
only its identity, and its distinctness from the opaque-reference namespace,
matter to the claims. -/
def OBJREGISTRY_MODULE : String := "godot_object_v1"

/-- Modelled from the spec: the reserved namespace of the opaque-reference
bridge (EXTERNREF_MODULE, defined in wasm_util.rs which is outside src). -/
def EXTERNREF_MODULE : String := "godot_object_v2"

/-- The ambient inputs of one instantiation call: the configuration binding
mode, the optional host-supplied function table (HostModuleCache::get_extern
returns Result of Option), the bridge function tables
(ObjregistryFuncs::get_func / ExternrefFuncs::get_func return Option keyed
by name), and the optional wasi linker. -/
structure LinkCtx where
  extern_bind : ExternBindingType
  host : Option (String → String → Except Unit (Option ExternVal))
  objregistryFun : String → Bool
  externrefFun : String → Bool
  wasiLinker : Option (String → String → Bool)

/-- First resolution source: the host-supplied function table, by exact
namespace and name match. None host table resolves nothing; a host lookup
error aborts instantiation (the question-mark operator in the source). -/
def tryHost (ctx : LinkCtx) (i : ImportDecl) : Except Unit (Option ExternVal) :=
  match ctx.host with
  | none => .ok none
  | some h => h i.module i.name

/-- Second resolution source: the built-in bridge namespaces, gated on the
configured binding mode, mirroring the match on (i.module(), config) in
instantiate_wasm. A namespace match with an unknown bridge name falls
through (the arm ends without continue). -/
def tryBridge (ctx : LinkCtx) (i : ImportDecl) : Option ExternVal :=
  if i.module = OBJREGISTRY_MODULE ∧ ctx.extern_bind = .registry then
    (if ctx.objregistryFun i.name then some (.objreg i.name) else none)
  else if i.module = EXTERNREF_MODULE ∧ ctx.extern_bind = .native then
    (if ctx.externrefFun i.name then some (.extref i.name) else none)
  else none

/-- Third resolution source: the wasi linker, when enabled
(wasi_linker.get_by_import in the source). -/
def tryWasi (ctx : LinkCtx) (i : ImportDecl) : Option ExternVal :=
  match ctx.wasiLinker with
  | none => none
  | some l => if l i.module i.name then some (.wasiFn i.module i.name) else none

/-- Fourth resolution source: a dependency module from the dependency table.
On a memo miss the dependency is instantiated through recur and memoized;
the export is then resolved by name against the (single) instance. Both the
missing-namespace case and the missing-export case reach the final bail
site, which names the unresolved namespace and name. -/
def resolveDepOrFailF
    (recur : ModuleSpec → InstState → Except InstErr (InstanceW × InstState))
    (m : ModuleSpec) (i : ImportDecl) (st : InstState) :
    Except InstErr (ExternVal × InstState) :=
  match depLookup m.deps i.module with
  | none => .error (.unknownImport i.module i.name)
  | some d =>
    match alookup st.memo d.id with
    | some inst =>
      if i.name ∈ inst.exports then .ok (.depExport inst.key i.name, st)
      else .error (.unknownImport i.module i.name)
    | none =>
      match recur d st with
      | .error e => .error e
      | .ok (inst, st1) =>
        if i.name ∈ inst.exports then
          .ok (.depExport inst.key i.name,
            InstState.mk ((d.id, inst) :: st1.memo) st1.nextKey)
        else .error (.unknownImport i.module i.name)

/-- Resolution of one declared import, in the order of the loop body of
instantiate_wasm: host table, then bridge namespaces, then wasi linker, then
dependency modules, else the unknown-import bail. -/
def resolveOneF (ctx : LinkCtx)
    (recur : ModuleSpec → InstState → Except InstErr (InstanceW × InstState))
    (m : ModuleSpec) (i : ImportDecl) (st : InstState) :
    Except InstErr (ExternVal × InstState) :=
  match tryHost ctx i with
  | .error _ => .error .hostError
  | .ok (some v) => .ok (v, st)
  | .ok none =>
    match tryBridge ctx i with
    | some v => .ok (v, st)
    | none =>
      match tryWasi ctx i with
      | some v => .ok (v, st)
      | none => resolveDepOrFailF recur m i st

/-- Resolution of the whole import list, left to right, threading the memo
state; the first unresolvable import aborts with its error. -/
def resolveImportsF (ctx : LinkCtx)
    (recur : ModuleSpec → InstState → Except InstErr (InstanceW × InstState))
    (m : ModuleSpec) :
    List ImportDecl → InstState → Except InstErr (List ExternVal × InstState)
  | [], st => .ok ([], st)
  | i :: rest, st =>
    match resolveOneF ctx recur m i st with
    | .error e => .error e
    | .ok (v, st1) =>
      match resolveImportsF ctx recur m rest st1 with
      | .error e => .error e
      | .ok (vs, st2) => .ok (v :: vs, st2)

/-- InstanceData::instantiate_wasm: checks the module is a core module,
resolves every declared import, and finalizes instantiation. Fuel bounds
the recursion depth of the embedding (the Rust recursion is bounded only by
the dependency graph); a successful run is unaffected by the bound. -/
def instantiateWasm (ctx : LinkCtx) :
    Nat → ModuleSpec → InstState → Except InstErr (InstanceW × InstState)
  | 0, _, _ => .error .outOfFuel
  | fuel + 1, m, st =>
    if m.core then
      match resolveImportsF ctx (fun d st2 => instantiateWasm ctx fuel d st2)
          m m.imports st with
      | .error e => .error e
      | .ok (_, st1) =>
        .ok (InstanceW.mk st1.nextKey m.exports, InstState.mk st1.memo (st1.nextKey + 1))
    else .error .cannotInstantiateComponent

/-- The memo state a top-level instantiate call starts from
(HashMap::new() at the call site of instantiate_wasm). -/
def initialInstState : InstState := InstState.mk [] 0

/-- How one run of the resolver may extend the memo: new bindings are
prepended, their keys are pairwise distinct, and each is an id from the
given scope that was unbound before. -/
def MemoExt (scope : List Nat) (st st2 : InstState) : Prop :=
  ∃ new, st2.memo = new ++ st.memo ∧ (memoKeys new).Nodup ∧
    ∀ k ∈ memoKeys new, k ∈ scope ∧ k ∉ memoKeys st.memo

/-! ## Store lock save and restore (acquire_store / release_store) -/

/-- The observable store state for the locking discipline: the current-lock
pointer InnerLock::mutex_raw (none models the null pointer), whether the
store mutex is locked, and an abstract residue of the remaining StoreData
that nested operations may mutate. -/
structure LockState where
  mutexRaw : Option Nat
  locked : Bool
  user : Nat
deriving DecidableEq, Repr

/-- Outcome of a nested host operation: normal return or unwinding. -/
inductive HostOutcome (α : Type) : Type where
  | ok (v : α)
  | panicked
deriving DecidableEq, Repr

/-- Result of running a host operation: its outcome plus the store state at
the moment it exits (normally or by unwinding). -/
structure HostResult (α : Type) where
  out : HostOutcome α
  state : LockState
deriving DecidableEq, Repr

/-- InstanceData::acquire_store. Locks the store mutex, swaps the raw mutex
address into mutex_raw remembering the previous value, runs f, and on every
exit path (the scopeguard fires on normal return and on unwind alike)
restores the saved pointer before the mutex guard unlocks. addr is the
address of the raw mutex of this store. -/
def acquire_store {α : Type} (addr : Nat) (f : LockState → HostResult α)
    (st : LockState) : HostResult α :=
  let saved := st.mutexRaw
  let r := f (LockState.mk (some addr) true st.user)
  HostResult.mk r.out (LockState.mk saved false r.state.user)

/-- InnerLock::release_store. If the current-lock pointer is null, f runs
directly. Otherwise the pointed-to mutex is unlocked, f runs (it may
reacquire and restore through acquire_store), and a scopeguard re-locks the
mutex on every exit path; the pointer itself is not modified by
release_store. -/
def release_store {α : Type} (f : LockState → HostResult α)
    (st : LockState) : HostResult α :=
  match st.mutexRaw with
  | none => f st
  | some _ =>
    let r := f (LockState.mk st.mutexRaw false st.user)
    HostResult.mk r.out (LockState.mk r.state.mutexRaw true r.state.user)

/-! ## Resource limiter (MemoryLimit) -/

/-- The remaining-allowance pair of the resource limiter. u64 counters in
the source; u64::MAX is the no-limit sentinel. -/
structure MemoryLimit where
  max_memory : Nat
  max_table_entries : Nat
deriving DecidableEq, Repr

/-- The no-limit sentinel (u64::MAX). -/
def U64MAX : Nat := 2 ^ 64 - 1

/-- MemoryLimit::memory_growing. The Rust method always returns Ok: a denial
is the boolean false through the growth protocol, never a host-call
failure. Returns the decision and the updated limiter. -/
def memory_growing (ml : MemoryLimit) (current desired : Nat)
    (max : Option Nat) : Bool × MemoryLimit :=
  if (match max with | some m => decide (m < desired) | none => false) then
    (false, ml)
  else if ml.max_memory = U64MAX then
    (true, ml)
  else
    let delta := desired - current
    if delta ≤ ml.max_memory then
      (true, MemoryLimit.mk (ml.max_memory - delta) ml.max_table_entries)
    else
      (false, ml)

/-- MemoryLimit::table_growing, identical shape over the table-entry
allowance. -/
def table_growing (ml : MemoryLimit) (current desired : Nat)
    (max : Option Nat) : Bool × MemoryLimit :=
  if (match max with | some m => decide (m < desired) | none => false) then
    (false, ml)
  else if ml.max_table_entries = U64MAX then
    (true, ml)
  else
    let delta := desired - current
    if delta ≤ ml.max_table_entries then
      (true, MemoryLimit.mk ml.max_memory (ml.max_table_entries - delta))
    else
      (false, ml)

/-! ## One-shot initialization guard (WasmInstance::initialize_) -/

/-- WasmInstance::initialize_ built on OnceCell::get_or_try_init: when the
data cell is already filled the initializer closure is not run and the call
reports success; otherwise the initializer runs, a success fills the cell,
and a failure leaves the instance permanently uninitialized. Returns the
boolean result of initialize_ and the cell afterwards. -/
def initialize_ {α : Type} (data : Option α) (ctor : Unit → Except Unit α) :
    Bool × Option α :=
  match data with
  | some v => (true, some v)
  | none =>
    match ctor () with
    | .ok v => (true, some v)
    | .error _ => (false, none)

/-! ## Packed-array component adapters (packed_array.rs) -/

/-- Errors of the packed-array adapter operations: a call rejected by the
per-operation capability filter, or an out-of-bound index or range (the
bail sites of the impl_packed_array macro). -/
inductive PaErr : Type where
  | filtered
  | outOfBound
deriving DecidableEq, Repr

/-- Rust slice indexing as_slice().get(b..e): defined exactly when
b ≤ e ≤ length, yielding the half-open window. -/
def sliceRange {α : Type} (v : List α) (b e : Nat) : Option (List α) :=
  if b ≤ e ∧ e ≤ v.length then some ((v.drop b).take (e - b)) else none

/-- The get operation of impl_packed_array: capability filter first, then
as_slice().get(i), converting the element to its wire form; bails with an
out-of-bound error past the end. -/
def pa_get {α β : Type} (enabled : Bool) (conv : α → β) (v : List α)
    (i : Nat) : Except PaErr β :=
  if enabled then
    match v[i]? with
    | some x => .ok (conv x)
    | none => .error .outOfBound
  else .error .filtered

/-- The slice operation of impl_packed_array: capability filter, then
as_slice().get(begin..end), converting each selected element; bails with an
out-of-bound error when the range is not within the array. -/
def pa_slice {α β : Type} (enabled : Bool) (conv : α → β) (v : List α)
    (b e : Nat) : Except PaErr (List β) :=
  if enabled then
    match sliceRange v b e with
    | some s => .ok (s.map conv)
    | none => .error .outOfBound
  else .error .filtered

/-- Modelled from the spec: the subarray operation delegates to the godot
crate PackedArray::subarray (external to this repository); per the spec it
takes the half-open range begin..end and fails with an out-of-bound error,
never silently clamping. The capability filter runs first as in the
source. -/
def pa_subarray {α : Type} (enabled : Bool) (v : List α) (b e : Nat) :
    Except PaErr (List α) :=
  if enabled then
    match sliceRange v b e with
    | some s => .ok s
    | none => .error .outOfBound
  else .error .filtered

/-! ## Packed-array from / to round trip (packed_array.rs)

The plain macro arm stores the wire elements directly
(PackedXArray::from then to_vec); the converting arm maps the projection
pair e1 / e2 element-wise. Floating-point fields are represented by their
bit patterns (the conversions only copy fields), and the GString / String
conversions of the string arm are modelled as the identity on strings per
their interface. -/

/-- Wire-level 2D vector of the component interface (two f32 fields,
represented by bit patterns). -/
structure WireVector2 where
  x : Nat
  y : Nat
deriving DecidableEq, Repr

/-- Host-side Vector2 (godot crate), same two fields. -/
structure GVector2 where
  x : Nat
  y : Nat
deriving DecidableEq, Repr

structure WireVector3 where
  x : Nat
  y : Nat
  z : Nat
deriving DecidableEq, Repr

structure GVector3 where
  x : Nat
  y : Nat
  z : Nat
deriving DecidableEq, Repr

structure WireColor where
  r : Nat
  g : Nat
  b : Nat
  a : Nat
deriving DecidableEq, Repr

structure GColor where
  r : Nat
  g : Nat
  b : Nat
  a : Nat
deriving DecidableEq, Repr

/-- Plain arm from (byte_array): PackedByteArray::from copies the wire
sequence. -/
def byte_array_from (val : List Nat) : List Nat := val

/-- Plain arm to (byte_array): to_vec copies the stored elements back. -/
def byte_array_to (arr : List Nat) : List Nat := arr

def int32_array_from (val : List Int) : List Int := val

def int32_array_to (arr : List Int) : List Int := arr

def int64_array_from (val : List Int) : List Int := val

def int64_array_to (arr : List Int) : List Int := arr

/-- f32 elements, stored by bit pattern. -/
def float32_array_from (val : List Nat) : List Nat := val

def float32_array_to (arr : List Nat) : List Nat := arr

def float64_array_from (val : List Nat) : List Nat := val

def float64_array_to (arr : List Nat) : List Nat := arr

/-- Converting arm from (vector2_array): e1 builds Vector2 from the wire
record field by field. -/
def vector2_array_from (val : List WireVector2) : List GVector2 :=
  val.map (fun v => GVector2.mk v.x v.y)

/-- Converting arm to (vector2_array): e2 rebuilds the wire record field by
field. -/
def vector2_array_to (arr : List GVector2) : List WireVector2 :=
  arr.map (fun v => WireVector2.mk v.x v.y)

def vector3_array_from (val : List WireVector3) : List GVector3 :=
  val.map (fun v => GVector3.mk v.x v.y v.z)

def vector3_array_to (arr : List GVector3) : List WireVector3 :=
  arr.map (fun v => WireVector3.mk v.x v.y v.z)

def color_array_from (val : List WireColor) : List GColor :=
  val.map (fun v => GColor.mk v.r v.g v.b v.a)

def color_array_to (arr : List GColor) : List WireColor :=
  arr.map (fun v => WireColor.mk v.r v.g v.b v.a)

/-- Converting arm from (string_array): GString::from on each element,
modelled as the identity on strings per the godot crate interface. -/
def string_array_from (val : List String) : List String :=
  val.map (fun v => v)

/-- Converting arm to (string_array): to_string on each element. -/
def string_array_to (arr : List String) : List String :=
  arr.map (fun v => v)

/-! ## Linear memory access layer (read_memory, write_memory, scalars, bulk)

Linear memory is a byte list; scalar and float payloads are carried as
little-endian bit patterns (the source only moves them through to_le_bytes
and from_le_bytes, so bounds and byte layout are unchanged). The godot-level
wrappers of these operations log the error and return a default value; the
embedding models the inner Result level where the explicit bounds error is
produced. -/

/-- Bounds errors and type errors of the memory layer, mirroring the bail
sites of wasm_instance.rs (Index out of bound lo-hi, Unsupported type ID,
Unknown type). -/
inductive MemErr : Type where
  | outOfBound (lo hi : Nat)
  | unsupportedType (t : Int)
  | unknownType (t : Int)
deriving DecidableEq, Repr

/-- The usize modulus, 2 to the 64 (the source targets 64-bit hosts). The
offset arithmetic of the memory layer is usize arithmetic: in release
builds an overflowing end-offset computation wraps around this modulus,
and in debug builds the same overflow panics. The embedding models the
release (wrapping) semantics. -/
def USIZE : Nat := 18446744073709551616

/-- Wrapping usize addition (the + of i..i + n in release builds). -/
def wadd (a b : Nat) : Nat := (a + b) % USIZE

/-- Wrapping usize multiplication (the * of len * N in release builds). -/
def wmul (a b : Nat) : Nat := (a * b) % USIZE

/-- WasmInstance::read_memory: the end offset i + n is computed in wrapping
usize arithmetic, then data.get(i..e), which succeeds exactly when
i ≤ e ≤ size, yielding that window; otherwise the explicit out-of-bound
error naming the (possibly wrapped) range, as the bail site prints it. -/
def read_memory (mem : List Nat) (i n : Nat) : Except MemErr (List Nat) :=
  let e := wadd i n
  if i ≤ e ∧ e ≤ mem.length then .ok ((mem.drop i).take (e - i))
  else .error (.outOfBound i e)

/-- WasmInstance::write_memory with a writer that stores exactly the bytes
repl: the wrapped end offset, data.get_mut(i..e), and the copy into that
window. In the success branch the window length e - i equals repl.length
for every Rust-representable slice (slice lengths are below the usize
modulus, so a wrapped end fails the i ≤ e check); on a length mismatch the
copy in the source would panic, a case outside the embedded domain. -/
def write_memory (mem : List Nat) (i : Nat) (repl : List Nat) :
    Except MemErr (List Nat) :=
  let e := wadd i repl.length
  if i ≤ e ∧ e ≤ mem.length then
    .ok (mem.take i ++ repl ++ mem.drop e)
  else .error (.outOfBound i e)

/-- Little-endian byte encoding of a value at a given byte width
(to_le_bytes). -/
def leBytes : Nat → Nat → List Nat
  | 0, _ => []
  | w + 1, v => v % 256 :: leBytes w (v / 256)

/-- Little-endian byte decoding (from_le_bytes), yielding the bit
pattern. -/
def leDecode : List Nat → Nat
  | [] => 0
  | b :: r => b + 256 * leDecode r

/-- WasmInstance::get_8. -/
def get_8 (mem : List Nat) (i : Nat) : Except MemErr Nat :=
  (read_memory mem i 1).map leDecode

/-- WasmInstance::put_8 (stores v masked to 8 bits, v and 255 in the
source). -/
def put_8 (mem : List Nat) (i : Nat) (v : Nat) : Except MemErr (List Nat) :=
  write_memory mem i (leBytes 1 (v % 2 ^ 8))

def get_16 (mem : List Nat) (i : Nat) : Except MemErr Nat :=
  (read_memory mem i 2).map leDecode

def put_16 (mem : List Nat) (i : Nat) (v : Nat) : Except MemErr (List Nat) :=
  write_memory mem i (leBytes 2 (v % 2 ^ 16))

def get_32 (mem : List Nat) (i : Nat) : Except MemErr Nat :=
  (read_memory mem i 4).map leDecode

def put_32 (mem : List Nat) (i : Nat) (v : Nat) : Except MemErr (List Nat) :=
  write_memory mem i (leBytes 4 (v % 2 ^ 32))

def get_64 (mem : List Nat) (i : Nat) : Except MemErr Nat :=
  (read_memory mem i 8).map leDecode

def put_64 (mem : List Nat) (i : Nat) (v : Nat) : Except MemErr (List Nat) :=
  write_memory mem i (leBytes 8 (v % 2 ^ 64))

/-- WasmInstance::get_float (f32, returned as its 32-bit pattern). -/
def get_float (mem : List Nat) (i : Nat) : Except MemErr Nat :=
  (read_memory mem i 4).map leDecode

/-- WasmInstance::put_float (f32 bit pattern, 4 little-endian bytes). -/
def put_float (mem : List Nat) (i : Nat) (v : Nat) : Except MemErr (List Nat) :=
  write_memory mem i (leBytes 4 (v % 2 ^ 32))

def get_double (mem : List Nat) (i : Nat) : Except MemErr Nat :=
  (read_memory mem i 8).map leDecode

def put_double (mem : List Nat) (i : Nat) (v : Nat) : Except MemErr (List Nat) :=
  write_memory mem i (leBytes 8 (v % 2 ^ 64))

/-- A homogeneous host array offered to put_array, one constructor per
supported VariantDispatch arm; integer and float elements are carried as
bit patterns, vectors and colors as tuples of field patterns. -/
inductive PackedData : Type where
  | bytes (v : List Nat)
  | int32 (v : List Nat)
  | int64 (v : List Nat)
  | float32 (v : List Nat)
  | float64 (v : List Nat)
  | vector2 (v : List (Nat × Nat))
  | vector3 (v : List (Nat × Nat × Nat))
  | color (v : List (Nat × Nat × Nat × Nat))
deriving DecidableEq, Repr

/-- Element count of a packed payload. -/
def pdCount : PackedData → Nat
  | .bytes v => v.length
  | .int32 v => v.length
  | .int64 v => v.length
  | .float32 v => v.length
  | .float64 v => v.length
  | .vector2 v => v.length
  | .vector3 v => v.length
  | .color v => v.length

/-- Fixed wire size of one element record (the const N of the generic
helper f in put_array / get_array). -/
def pdSize : PackedData → Nat
  | .bytes _ => 1
  | .int32 _ => 4
  | .int64 _ => 8
  | .float32 _ => 4
  | .float64 _ => 8
  | .vector2 _ => 8
  | .vector3 _ => 12
  | .color _ => 16

/-- The little-endian record encodings of a payload, one fixed-size record
per element, mirroring the per-arm closures of put_array. -/
def pdRecords : PackedData → List (List Nat)
  | .bytes v => v.map (fun x => [x % 2 ^ 8])
  | .int32 v => v.map (fun x => leBytes 4 (x % 2 ^ 32))
  | .int64 v => v.map (fun x => leBytes 8 (x % 2 ^ 64))
  | .float32 v => v.map (fun x => leBytes 4 (x % 2 ^ 32))
  | .float64 v => v.map (fun x => leBytes 8 (x % 2 ^ 64))
  | .vector2 v => v.map (fun p => leBytes 4 (p.1 % 2 ^ 32) ++ leBytes 4 (p.2 % 2 ^ 32))
  | .vector3 v => v.map (fun p =>
      leBytes 4 (p.1 % 2 ^ 32) ++ leBytes 4 (p.2.1 % 2 ^ 32) ++ leBytes 4 (p.2.2 % 2 ^ 32))
  | .color v => v.map (fun p =>
      leBytes 4 (p.1 % 2 ^ 32) ++ leBytes 4 (p.2.1 % 2 ^ 32) ++
      leBytes 4 (p.2.2.1 % 2 ^ 32) ++ leBytes 4 (p.2.2.2 % 2 ^ 32))

/-- The generic helper f of put_array: e = i + len * N in wrapping usize
arithmetic, the bounds check data.get_mut(i..e), then the element records
written by zipping the source elements with the exact N-byte chunks of the
window: the zip writes min(len, (e - i) / N) records and leaves the rest of
the window untouched (in the unwrapped case that is all len records,
covering the window exactly). -/
def putRecords (mem : List Nat) (i : Nat) (recs : List (List Nat)) (N : Nat) :
    Except MemErr (List Nat) :=
  let e := wadd i (wmul recs.length N)
  if i ≤ e ∧ e ≤ mem.length then
    let written := (recs.take (min recs.length ((e - i) / N))).flatten
    .ok (mem.take i ++ written ++ mem.drop (i + written.length))
  else .error (.outOfBound i e)

/-- WasmInstance::put_array: dispatches on the payload type and bulk-writes
the contiguous little-endian run of fixed-size records. -/
def put_array (mem : List Nat) (i : Nat) : PackedData → Except MemErr (List Nat)
  | .bytes v =>
    let e := wadd i v.length
    if i ≤ e ∧ e ≤ mem.length then .ok (mem.take i ++ v ++ mem.drop e)
    else .error (.outOfBound i e)
  | .int32 v => putRecords mem i (pdRecords (.int32 v)) 4
  | .int64 v => putRecords mem i (pdRecords (.int64 v)) 8
  | .float32 v => putRecords mem i (pdRecords (.float32 v)) 4
  | .float64 v => putRecords mem i (pdRecords (.float64 v)) 8
  | .vector2 v => putRecords mem i (pdRecords (.vector2 v)) 8
  | .vector3 v => putRecords mem i (pdRecords (.vector3 v)) 12
  | .color v => putRecords mem i (pdRecords (.color v)) 16

/-- Exact chunking of a byte run into records of N bytes, structurally
recursive on a fuel that starts at the run length (each chunk consumes at
least one element, so the fuel never runs out first). -/
def chunksAux (N : Nat) : Nat → List Nat → List (List Nat)
  | 0, _ => []
  | fuel + 1, l =>
    if N = 0 then []
    else if N ≤ l.length then l.take N :: chunksAux N fuel (l.drop N)
    else []

/-- par_chunks_exact of the source: the run split into full N-byte records,
a final partial chunk dropped. -/
def chunks (N : Nat) (l : List Nat) : List (List Nat) := chunksAux N l.length l

/-- The generic helper f of get_array: e = i + n * N in wrapping usize
arithmetic (the multiplication itself wraps, so a huge element count can
wrap e back into range), the bounds check data.get(i..e), and the exact
N-byte records of that window decoded. -/
def getRecords {α : Type} (mem : List Nat) (i n N : Nat)
    (dec : List Nat → α) : Except MemErr (List α) :=
  let e := wadd i (wmul n N)
  if i ≤ e ∧ e ≤ mem.length then
    .ok ((chunks N ((mem.drop i).take (e - i))).map dec)
  else .error (.outOfBound i e)

/-- Record decoder for 2-field vectors: two consecutive 4-byte fields. -/
def decV2 (s : List Nat) : Nat × Nat :=
  (leDecode (s.take 4), leDecode ((s.drop 4).take 4))

def decV3 (s : List Nat) : Nat × Nat × Nat :=
  (leDecode (s.take 4), leDecode ((s.drop 4).take 4),
   leDecode ((s.drop 8).take 4))

def decColor (s : List Nat) : Nat × Nat × Nat × Nat :=
  (leDecode (s.take 4), leDecode ((s.drop 4).take 4),
   leDecode ((s.drop 8).take 4), leDecode ((s.drop 12).take 4))

/-- WasmInstance::get_array: dispatches on the Variant type id t (i64 in the
source) in the order of the match arms: the supported ids 29 to 37 (34, the
string array, is not an arm), then the catch-all at-most-37 arm bailing
Unsupported type ID, then the final arm bailing Unknown type. -/
def get_array (mem : List Nat) (i n : Nat) (t : Int) :
    Except MemErr PackedData :=
  if t = 29 then
    let e := wadd i n
    if i ≤ e ∧ e ≤ mem.length then .ok (.bytes ((mem.drop i).take (e - i)))
    else .error (.outOfBound i e)
  else if t = 30 then (getRecords mem i n 4 leDecode).map .int32
  else if t = 31 then (getRecords mem i n 8 leDecode).map .int64
  else if t = 32 then (getRecords mem i n 4 leDecode).map .float32
  else if t = 33 then (getRecords mem i n 8 leDecode).map .float64
  else if t = 35 then (getRecords mem i n 8 decV2).map .vector2
  else if t = 36 then (getRecords mem i n 12 decV3).map .vector3
  else if t = 37 then (getRecords mem i n 16 decColor).map .color
  else if t ≤ 37 then .error (.unsupportedType t)
  else .error (.unknownType t)

/-! ## Object-registry array bridge registration (wasm_objregistry/funcs/array.rs) -/

/-- Linker::func_wrap of wasmtime: defining an already-defined
(module, name) pair is an error unless shadowing was allowed (it is
disallowed on a fresh Linker). The linker is modelled by its set of
defined import pairs. -/
def func_wrap (allowShadowing : Bool) (l : List (String × String))
    (m n : String) : Except Unit (List (String × String)) :=
  if allowShadowing = false ∧ (m, n) ∈ l then .error ()
  else .ok ((m, n) :: l)

/-- The bridge function names defined by register_functions, in source
order. Note that array.len is registered twice (lines 23 to 47 of
array.rs). -/
def objregistryArrayNames : List String :=
  ["array.new", "array.len", "array.len", "array.get", "array.set",
   "array.count", "array.contains", "array.find", "array.rfind",
   "array.find_last", "array.invert", "array.sort", "array.duplicate",
   "array.clear", "array.remove", "array.erase", "array.resize",
   "array.push", "array.pop", "array.push_front", "array.pop_front",
   "array.insert"]

/-- register_functions: each func_wrap call is unwrapped, so a duplicate
definition aborts the whole registration (none models the unwrap panic). -/
def register_functions_go (allowShadowing : Bool) :
    List String → List (String × String) → Option (List (String × String))
  | [], l => some l
  | n :: r, l =>
    match func_wrap allowShadowing l OBJREGISTRY_MODULE n with
    | .ok l2 => register_functions_go allowShadowing r l2
    | .error _ => none

/-- register_functions of the object-registry array bridge. -/
def register_functions (allowShadowing : Bool)
    (l : List (String × String)) : Option (List (String × String)) :=
  register_functions_go allowShadowing objregistryArrayNames l

/-!
# Theorems

The claims of the specification, settled against the embedding above.
-/

/-- C3: the current-lock pointer InnerLock::mutex_raw equals the address of
the raw store mutex for the duration of a genuine acquire_store hold (a
probe run inside observes it), is restored to its previous value on every
exit path of acquire_store, for every nested operation including ones that
unwind, hence stays null whenever it was null outside the acquisition; the
mutex ends unlocked; and release_store leaves the pointer at its previous
value on every exit path whenever the nested operation restores it. -/
theorem c3_lock_pointer_invariant :
    (∀ (addr : Nat) (st : LockState),
      (acquire_store addr (fun s => HostResult.mk (.ok s.mutexRaw) s) st).out
        = .ok (some addr))
    ∧ (∀ (α : Type) (addr : Nat) (f : LockState → HostResult α) (st : LockState),
      (acquire_store addr f st).state.mutexRaw = st.mutexRaw)
    ∧ (∀ (α : Type) (addr : Nat) (f : LockState → HostResult α) (st : LockState),
      (acquire_store addr f st).state.locked = false)
    ∧ (∀ (α : Type) (addr : Nat) (f : LockState → HostResult α) (st : LockState),
      st.mutexRaw = none → (acquire_store addr f st).state.mutexRaw = none)
    ∧ (∀ (α : Type) (f : LockState → HostResult α) (st : LockState),
      (∀ s, (f s).state.mutexRaw = s.mutexRaw) →
      (release_store f st).state.mutexRaw = st.mutexRaw) := by
  refine ⟨fun addr st => rfl, fun α addr f st => rfl, fun α addr f st => rfl,
    fun α addr f st h => by simp [acquire_store, h], fun α f st h => ?_⟩
  match hm : st.mutexRaw with
  | none =>
    have h2 := h st
    simp only [release_store, hm]
    rw [h2, hm]
  | some a =>
    have h2 := h (LockState.mk st.mutexRaw false st.user)
    simp only [release_store, hm] at h2 ⊢
    exact h2

/-- C3 witness: the invariant at a concrete address and state, with a
released window re-running a pointer-preserving nested operation. -/
theorem c3_witness :
    (acquire_store 7 (fun s => HostResult.mk (.ok s.mutexRaw) s)
      (LockState.mk none false 0)).out = .ok (some 7)
    ∧ (acquire_store 7 (fun s => HostResult.mk (HostOutcome.panicked (α := Nat)) s)
      (LockState.mk none false 0)).state.mutexRaw = none
    ∧ (release_store (fun s => HostResult.mk (.ok (0 : Nat)) s)
      (LockState.mk (some 7) true 3)).state.mutexRaw = some 7 := by
  refine ⟨c3_lock_pointer_invariant.1 7 _, ?_, ?_⟩
  · exact c3_lock_pointer_invariant.2.2.2.1 Nat 7 _ _ rfl
  · exact c3_lock_pointer_invariant.2.2.2.2 Nat _ _ (fun s => rfl)

/-- C5: every growth request is first denied when the guest-declared hard
maximum would be exceeded; otherwise a no-limit sentinel allowance grants
with the allowance unchanged; otherwise a delta beyond the remaining
allowance is denied through the growth protocol leaving the allowance
unchanged, and a delta within the allowance is granted with the allowance
decreased by exactly the delta. Both for memory and for table growth. -/
theorem c5_resource_limiter (ml : MemoryLimit) (current desired : Nat)
    (max : Option Nat) :
    (∀ m, max = some m → m < desired →
      memory_growing ml current desired max = (false, ml)
      ∧ table_growing ml current desired max = (false, ml))
    ∧ ((∀ m, max = some m → desired ≤ m) → ml.max_memory = U64MAX →
      memory_growing ml current desired max = (true, ml))
    ∧ ((∀ m, max = some m → desired ≤ m) → ml.max_memory ≠ U64MAX →
      ml.max_memory < desired - current →
      memory_growing ml current desired max = (false, ml))
    ∧ ((∀ m, max = some m → desired ≤ m) → ml.max_memory ≠ U64MAX →
      desired - current ≤ ml.max_memory →
      memory_growing ml current desired max
        = (true, MemoryLimit.mk (ml.max_memory - (desired - current))
            ml.max_table_entries))
    ∧ ((∀ m, max = some m → desired ≤ m) → ml.max_table_entries = U64MAX →
      table_growing ml current desired max = (true, ml))
    ∧ ((∀ m, max = some m → desired ≤ m) → ml.max_table_entries ≠ U64MAX →
      ml.max_table_entries < desired - current →
      table_growing ml current desired max = (false, ml))
    ∧ ((∀ m, max = some m → desired ≤ m) → ml.max_table_entries ≠ U64MAX →
      desired - current ≤ ml.max_table_entries →
      table_growing ml current desired max
        = (true, MemoryLimit.mk ml.max_memory
            (ml.max_table_entries - (desired - current)))) := by
  have hden : (∀ m, max = some m → desired ≤ m) →
      (match max with | some m => decide (m < desired) | none => false) = false := by
    intro h
    match max with
    | none => rfl
    | some m => simpa using Nat.not_lt.mpr (h m rfl)
  refine ⟨?_, ?_, ?_, ?_, ?_, ?_, ?_⟩
  · intro m hm hlt
    subst hm
    constructor
    · simp [memory_growing, hlt]
    · simp [table_growing, hlt]
  · intro h hU
    have := hden h
    simp [memory_growing, this, hU]
  · intro h hU hlt
    have := hden h
    simp [memory_growing, this, hU, Nat.not_le.mpr hlt, Nat.not_le_of_lt hlt]
  · intro h hU hle
    have := hden h
    simp [memory_growing, this, hU, hle]
  · intro h hU
    have := hden h
    simp [table_growing, this, hU]
  · intro h hU hlt
    have := hden h
    simp [table_growing, this, hU, Nat.not_le.mpr hlt, Nat.not_le_of_lt hlt]
  · intro h hU hle
    have := hden h
    simp [table_growing, this, hU, hle]

/-- C5 witness: the spec example. A growth request of delta 10 against a
remaining allowance of 5 is denied leaving 5; a request of delta 3 against
allowance 5 is granted leaving 2; a request past the guest hard maximum is
denied first. -/
theorem c5_witness :
    memory_growing (MemoryLimit.mk 5 5) 0 10 none = (false, MemoryLimit.mk 5 5)
    ∧ memory_growing (MemoryLimit.mk 5 5) 0 3 none = (true, MemoryLimit.mk 2 5)
    ∧ table_growing (MemoryLimit.mk 5 5) 0 10 none = (false, MemoryLimit.mk 5 5)
    ∧ table_growing (MemoryLimit.mk 5 5) 0 3 none = (true, MemoryLimit.mk 5 2)
    ∧ memory_growing (MemoryLimit.mk 5 5) 0 10 (some 8) = (false, MemoryLimit.mk 5 5) := by
  refine ⟨?_, ?_, ?_, ?_, ?_⟩
  · have h := (c5_resource_limiter (MemoryLimit.mk 5 5) 0 10 none).2.2.1
      (fun m hm => by cases hm) (by decide) (by decide)
    simpa using h
  · have h := (c5_resource_limiter (MemoryLimit.mk 5 5) 0 3 none).2.2.2.1
      (fun m hm => by cases hm) (by decide) (by decide)
    simpa using h
  · have h := (c5_resource_limiter (MemoryLimit.mk 5 5) 0 10 none).2.2.2.2.2.1
      (fun m hm => by cases hm) (by decide) (by decide)
    simpa using h
  · have h := (c5_resource_limiter (MemoryLimit.mk 5 5) 0 3 none).2.2.2.2.2.2
      (fun m hm => by cases hm) (by decide) (by decide)
    simpa using h
  · have h := ((c5_resource_limiter (MemoryLimit.mk 5 5) 0 10 (some 8)).1
      8 rfl (by decide)).1
    simpa using h

/-- C6: initialize on an already-initialized Instance is a no-op success:
the call reports true, the stored instance data is preserved unchanged, and
the outcome does not depend on the initializer (which get_or_try_init never
runs on a filled cell), so nothing is re-instantiated. -/
theorem c6_reinit_noop_success (α : Type) (v : α)
    (f g : Unit → Except Unit α) :
    initialize_ (some v) f = (true, some v)
    ∧ initialize_ (some v) f = initialize_ (some v) g :=
  ⟨rfl, rfl⟩

/-- C7 counterexample: a re-initialization attempt on an already-initialized
Instance is not rejected; at a concrete filled cell, initialize_ reports
success and keeps the first instance, even though the offered initializer
would fail. -/
theorem c7_counterexample_reinit_succeeds :
    initialize_ (some (0 : Nat)) (fun _ => .error ()) = (true, some 0) := rfl

/-- C7 (amended): an Instance is created at most once per wrapper, enforced
by the one-shot guard, but a re-initialization attempt on an
already-initialized Instance is accepted as an idempotent no-op success
preserving the first instance, not rejected. -/
theorem c7_oneshot_guard_amended (α : Type) (st : Option α)
    (f : Unit → Except Unit α) (v : α) (h : st = some v) :
    initialize_ st f = (true, some v) := by
  subst h
  rfl

/-- C7 witness: the amended guard behavior at a concrete filled cell. -/
theorem c7_witness :
    initialize_ (some (5 : Nat)) (fun _ => .ok 6) = (true, some 5) :=
  c7_oneshot_guard_amended Nat (some 5) (fun _ => .ok 6) 5 rfl

/-! Helper lemmas for the linear-memory layer. -/

theorem leBytes_length (w v : Nat) : (leBytes w v).length = w := by
  induction w generalizing v with
  | zero => rfl
  | succ w ih => simp [leBytes, ih]

theorem flatten_const_length (N : Nat) :
    ∀ recs : List (List Nat), (∀ r ∈ recs, r.length = N) →
      recs.flatten.length = recs.length * N := by
  intro recs
  induction recs with
  | nil => intro _; simp
  | cons a t ih =>
    intro h
    have ha := h a (by simp)
    have ht := ih (fun r hr => h r (by simp [hr]))
    simp [List.flatten, ha, ht, Nat.succ_mul, Nat.add_comm]

theorem pdRecords_count (pd : PackedData) :
    (pdRecords pd).length = pdCount pd := by
  cases pd <;> simp [pdRecords, pdCount]

theorem pdRecords_size (pd : PackedData) :
    ∀ r ∈ pdRecords pd, r.length = pdSize pd := by
  cases pd <;>
    · intro r hr
      simp only [pdRecords] at hr
      obtain ⟨x, _, hx⟩ := List.mem_map.mp hr
      subst hx
      simp [pdSize, leBytes_length]

theorem spliceFacts (mem repl : List Nat) (i : Nat)
    (h : i + repl.length ≤ mem.length) :
    (mem.take i ++ repl ++ mem.drop (i + repl.length)).length = mem.length
    ∧ (mem.take i ++ repl ++ mem.drop (i + repl.length)).take i = mem.take i
    ∧ ((mem.take i ++ repl ++ mem.drop (i + repl.length)).drop i).take repl.length = repl
    ∧ (mem.take i ++ repl ++ mem.drop (i + repl.length)).drop (i + repl.length)
      = mem.drop (i + repl.length) := by
  have hA : (mem.take i).length = i := by
    rw [List.length_take]
    omega
  refine ⟨?_, ?_, ?_, ?_⟩
  · simp only [List.length_append, List.length_take, List.length_drop]
    omega
  · rw [List.append_assoc]
    exact List.take_left' hA
  · rw [List.append_assoc, List.drop_left' hA]
    exact List.take_left' rfl
  · rw [List.append_assoc]
    have h1 : i + repl.length = (mem.take i).length + repl.length := by rw [hA]
    rw [h1, List.drop_append, List.drop_left' rfl, ← hA]

theorem wadd_small (a b : Nat) (h : a + b < USIZE) : wadd a b = a + b :=
  Nat.mod_eq_of_lt h

theorem wmul_small (a b : Nat) (h : a * b < USIZE) : wmul a b = a * b :=
  Nat.mod_eq_of_lt h

/-- The wrapped slice-range check i ≤ e ≤ len coincides with the true range
check whenever the operands are genuine usize values and the memory size is
below the modulus: a wrapped end lands strictly below i and is rejected. -/
theorem wcheck_iff (i n len : Nat) (hi : i < USIZE) (hn : n < USIZE)
    (hl : len < USIZE) : (i ≤ wadd i n ∧ wadd i n ≤ len) ↔ i + n ≤ len := by
  by_cases hw : i + n < USIZE
  · rw [wadd, Nat.mod_eq_of_lt hw]
    omega
  · rw [wadd, Nat.mod_eq_sub_mod (by omega), Nat.mod_eq_of_lt (by omega)]
    omega

/-- The success and frame behavior of write_memory, shared by all writing
operations. -/
theorem write_memory_ok (mem repl : List Nat) (i : Nat)
    (hl : mem.length < USIZE) (h : i + repl.length ≤ mem.length) :
    ∃ r, write_memory mem i repl = .ok r
      ∧ r.length = mem.length
      ∧ r.take i = mem.take i
      ∧ (r.drop i).take repl.length = repl
      ∧ r.drop (i + repl.length) = mem.drop (i + repl.length) := by
  have he : wadd i repl.length = i + repl.length := wadd_small _ _ (by omega)
  refine ⟨mem.take i ++ repl ++ mem.drop (i + repl.length), ?_,
    spliceFacts mem repl i h⟩
  simp [write_memory, he, Nat.le_add_right, h]

/-- C4 counterexample to the claim as stated: with the wrapping usize
semantics of release builds, a bulk read request of 2 to the 60 color
records (each 16 bytes) wraps the end-offset product to zero, so get_array
succeeds on a 4-byte memory although the requested byte range vastly
exceeds the memory size. -/
theorem c4_counterexample_wrap :
    get_array [0, 1, 2, 3] 0 (2 ^ 60) 37 = .ok (.color [])
    ∧ ¬ (0 + 2 ^ 60 * 16 ≤ ([0, 1, 2, 3] : List Nat).length) := by
  constructor
  · rfl
  · decide

/-- C4 (amended): every linear-memory operation computes its end offset in
wrapping usize arithmetic (release semantics; in debug builds the same
overflow panics instead of erroring) and succeeds exactly when the wrapped
slice-range check i ≤ e ≤ size passes. For memory read and write, the
scalar accessors of every width, and put_array (whose payload byte size is
below the usize modulus for every realizable host array), the wrapped check
coincides with the requested byte range lying within the current memory
size, with the explicit out-of-bound error naming the (wrapped) range
otherwise; reads return exactly the requested window and writes preserve
prefix, suffix and length. get_array succeeds only when the wrapped check
passes, which coincides with the true range check whenever the
element-count product does not wrap; an unsupported or unknown type id
fails with the corresponding type error. -/
theorem c4_memory_bounds (mem : List Nat) (i n : Nat) (repl : List Nat)
    (v : Nat) (pd : PackedData) (t : Int)
    (hi : i < USIZE) (hn : n < USIZE) (hl : mem.length < USIZE)
    (hrepl : repl.length < USIZE)
    (hpd : pdCount pd * pdSize pd < USIZE) :
    (i + n ≤ mem.length → read_memory mem i n = .ok ((mem.drop i).take n))
    ∧ (mem.length < i + n →
        read_memory mem i n = .error (.outOfBound i (wadd i n)))
    ∧ (i + repl.length ≤ mem.length → ∃ r, write_memory mem i repl = .ok r
        ∧ r.length = mem.length
        ∧ r.take i = mem.take i
        ∧ (r.drop i).take repl.length = repl
        ∧ r.drop (i + repl.length) = mem.drop (i + repl.length))
    ∧ (mem.length < i + repl.length →
        write_memory mem i repl = .error (.outOfBound i (wadd i repl.length)))
    ∧ ((∃ x, get_8 mem i = .ok x) ↔ i + 1 ≤ mem.length)
    ∧ (mem.length < i + 1 → get_8 mem i = .error (.outOfBound i (wadd i 1)))
    ∧ ((∃ r, put_8 mem i v = .ok r) ↔ i + 1 ≤ mem.length)
    ∧ (mem.length < i + 1 → put_8 mem i v = .error (.outOfBound i (wadd i 1)))
    ∧ ((∃ x, get_16 mem i = .ok x) ↔ i + 2 ≤ mem.length)
    ∧ (mem.length < i + 2 → get_16 mem i = .error (.outOfBound i (wadd i 2)))
    ∧ ((∃ r, put_16 mem i v = .ok r) ↔ i + 2 ≤ mem.length)
    ∧ (mem.length < i + 2 → put_16 mem i v = .error (.outOfBound i (wadd i 2)))
    ∧ ((∃ x, get_32 mem i = .ok x) ↔ i + 4 ≤ mem.length)
    ∧ (mem.length < i + 4 → get_32 mem i = .error (.outOfBound i (wadd i 4)))
    ∧ ((∃ r, put_32 mem i v = .ok r) ↔ i + 4 ≤ mem.length)
    ∧ (mem.length < i + 4 → put_32 mem i v = .error (.outOfBound i (wadd i 4)))
    ∧ ((∃ x, get_64 mem i = .ok x) ↔ i + 8 ≤ mem.length)
    ∧ (mem.length < i + 8 → get_64 mem i = .error (.outOfBound i (wadd i 8)))
    ∧ ((∃ r, put_64 mem i v = .ok r) ↔ i + 8 ≤ mem.length)
    ∧ (mem.length < i + 8 → put_64 mem i v = .error (.outOfBound i (wadd i 8)))
    ∧ ((∃ x, get_float mem i = .ok x) ↔ i + 4 ≤ mem.length)
    ∧ (mem.length < i + 4 → get_float mem i = .error (.outOfBound i (wadd i 4)))
    ∧ ((∃ r, put_float mem i v = .ok r) ↔ i + 4 ≤ mem.length)
    ∧ (mem.length < i + 4 → put_float mem i v = .error (.outOfBound i (wadd i 4)))
    ∧ ((∃ x, get_double mem i = .ok x) ↔ i + 8 ≤ mem.length)
    ∧ (mem.length < i + 8 → get_double mem i = .error (.outOfBound i (wadd i 8)))
    ∧ ((∃ r, put_double mem i v = .ok r) ↔ i + 8 ≤ mem.length)
    ∧ (mem.length < i + 8 → put_double mem i v = .error (.outOfBound i (wadd i 8)))
    ∧ (i + pdCount pd * pdSize pd ≤ mem.length →
        ∃ r, put_array mem i pd = .ok r
          ∧ r.length = mem.length
          ∧ r.take i = mem.take i
          ∧ r.drop (i + pdCount pd * pdSize pd)
            = mem.drop (i + pdCount pd * pdSize pd))
    ∧ (mem.length < i + pdCount pd * pdSize pd →
        put_array mem i pd
          = .error (.outOfBound i (wadd i (wmul (pdCount pd) (pdSize pd)))))
    ∧ (i + n ≤ mem.length → ∃ x, get_array mem i n 29 = .ok x)
    ∧ (mem.length < i + n →
        get_array mem i n 29 = .error (.outOfBound i (wadd i n)))
    ∧ (∀ x, get_array mem i n 29 = .ok x →
        i ≤ wadd i n ∧ wadd i n ≤ mem.length)
    ∧ (n * 4 < USIZE → i + n * 4 ≤ mem.length → ∃ x, get_array mem i n 30 = .ok x)
    ∧ (n * 4 < USIZE → mem.length < i + n * 4 →
        get_array mem i n 30 = .error (.outOfBound i (wadd i (wmul n 4))))
    ∧ (n * 8 < USIZE → i + n * 8 ≤ mem.length → ∃ x, get_array mem i n 31 = .ok x)
    ∧ (n * 8 < USIZE → mem.length < i + n * 8 →
        get_array mem i n 31 = .error (.outOfBound i (wadd i (wmul n 8))))
    ∧ (n * 4 < USIZE → i + n * 4 ≤ mem.length → ∃ x, get_array mem i n 32 = .ok x)
    ∧ (n * 4 < USIZE → mem.length < i + n * 4 →
        get_array mem i n 32 = .error (.outOfBound i (wadd i (wmul n 4))))
    ∧ (n * 8 < USIZE → i + n * 8 ≤ mem.length → ∃ x, get_array mem i n 33 = .ok x)
    ∧ (n * 8 < USIZE → mem.length < i + n * 8 →
        get_array mem i n 33 = .error (.outOfBound i (wadd i (wmul n 8))))
    ∧ (n * 8 < USIZE → i + n * 8 ≤ mem.length → ∃ x, get_array mem i n 35 = .ok x)
    ∧ (n * 8 < USIZE → mem.length < i + n * 8 →
        get_array mem i n 35 = .error (.outOfBound i (wadd i (wmul n 8))))
    ∧ (n * 12 < USIZE → i + n * 12 ≤ mem.length → ∃ x, get_array mem i n 36 = .ok x)
    ∧ (n * 12 < USIZE → mem.length < i + n * 12 →
        get_array mem i n 36 = .error (.outOfBound i (wadd i (wmul n 12))))
    ∧ (n * 16 < USIZE → i + n * 16 ≤ mem.length → ∃ x, get_array mem i n 37 = .ok x)
    ∧ (n * 16 < USIZE → mem.length < i + n * 16 →
        get_array mem i n 37 = .error (.outOfBound i (wadd i (wmul n 16))))
    ∧ (∀ x, get_array mem i n 37 = .ok x →
        i ≤ wadd i (wmul n 16) ∧ wadd i (wmul n 16) ≤ mem.length)
    ∧ (t ≤ 37 → t ∉ ([29, 30, 31, 32, 33, 35, 36, 37] : List Int) →
        get_array mem i n t = .error (.unsupportedType t))
    ∧ (37 < t → get_array mem i n t = .error (.unknownType t)) := by
  have hget : ∀ w : Nat, w < USIZE →
      ((∃ x, (read_memory mem i w).map leDecode = .ok x) ↔ i + w ≤ mem.length)
      ∧ (mem.length < i + w →
        (read_memory mem i w).map leDecode = .error (.outOfBound i (wadd i w))) := by
    intro w hw
    constructor
    · constructor
      · rintro ⟨x, hx⟩
        by_contra hc
        have hfail : ¬(i ≤ wadd i w ∧ wadd i w ≤ mem.length) :=
          fun hcc => hc ((wcheck_iff i w mem.length hi hw hl).mp hcc)
        simp [read_memory, hfail, Except.map] at hx
      · intro hb
        have hok := (wcheck_iff i w mem.length hi hw hl).mpr hb
        exact ⟨leDecode ((mem.drop i).take (wadd i w - i)),
          by simp [read_memory, hok, Except.map]⟩
    · intro hb
      have hfail : ¬(i ≤ wadd i w ∧ wadd i w ≤ mem.length) := by
        intro hcc
        have := (wcheck_iff i w mem.length hi hw hl).mp hcc
        omega
      simp [read_memory, hfail, Except.map]
  have hput : ∀ w val : Nat, w < USIZE →
      ((∃ r, write_memory mem i (leBytes w val) = .ok r) ↔ i + w ≤ mem.length)
      ∧ (mem.length < i + w →
        write_memory mem i (leBytes w val)
          = .error (.outOfBound i (wadd i w))) := by
    intro w val hw
    constructor
    · constructor
      · rintro ⟨x, hx⟩
        by_contra hc
        have hfail : ¬(i ≤ wadd i w ∧ wadd i w ≤ mem.length) :=
          fun hcc => hc ((wcheck_iff i w mem.length hi hw hl).mp hcc)
        simp [write_memory, leBytes_length, hfail] at hx
      · intro hb
        have hok := (wcheck_iff i w mem.length hi hw hl).mpr hb
        exact ⟨mem.take i ++ leBytes w val ++ mem.drop (wadd i w),
          by simp [write_memory, leBytes_length, hok]⟩
    · intro hb
      have hfail : ¬(i ≤ wadd i w ∧ wadd i w ≤ mem.length) := by
        intro hcc
        have := (wcheck_iff i w mem.length hi hw hl).mp hcc
        omega
      simp [write_memory, leBytes_length, hfail]
  have hputrec : ∀ (recs : List (List Nat)) (N : Nat), 0 < N →
      (∀ r ∈ recs, r.length = N) → recs.length * N < USIZE →
      (i + recs.length * N ≤ mem.length →
        ∃ r, putRecords mem i recs N = .ok r
          ∧ r.length = mem.length
          ∧ r.take i = mem.take i
          ∧ r.drop (i + recs.length * N) = mem.drop (i + recs.length * N))
      ∧ (mem.length < i + recs.length * N →
        putRecords mem i recs N
          = .error (.outOfBound i (wadd i (wmul recs.length N)))) := by
    intro recs N hN hr hprod
    have hm : wmul recs.length N = recs.length * N := wmul_small _ _ hprod
    have hf : recs.flatten.length = recs.length * N := flatten_const_length N recs hr
    constructor
    · intro hb
      have he : wadd i (wmul recs.length N) = i + recs.length * N := by
        rw [hm]
        exact wadd_small _ _ (by omega)
      have hok : i ≤ wadd i (wmul recs.length N)
          ∧ wadd i (wmul recs.length N) ≤ mem.length := by
        rw [he]
        exact ⟨Nat.le_add_right _ _, hb⟩
      have hdiv : (wadd i (wmul recs.length N) - i) / N = recs.length := by
        rw [he, Nat.add_sub_cancel_left]
        exact Nat.mul_div_left recs.length hN
      obtain ⟨hlen, ht, _, hd⟩ := spliceFacts mem recs.flatten i (by rw [hf]; omega)
      rw [hf] at hlen ht hd
      refine ⟨mem.take i ++ recs.flatten ++ mem.drop (i + recs.length * N),
        ?_, hlen, ht, hd⟩
      simp only [putRecords]
      rw [if_pos hok, hdiv, Nat.min_self, List.take_length, hf]
    · intro hb
      have hfail : ¬(i ≤ wadd i (wmul recs.length N)
          ∧ wadd i (wmul recs.length N) ≤ mem.length) := by
        intro hcc
        rw [hm] at hcc
        have := (wcheck_iff i (recs.length * N) mem.length hi (by omega) hl).mp hcc
        omega
      simp [putRecords, hfail]
  have hgetrec : ∀ (N : Nat) (α : Type) (dec : List Nat → α), n * N < USIZE →
      (i + n * N ≤ mem.length → ∃ x, getRecords mem i n N dec = .ok x)
      ∧ (mem.length < i + n * N →
        getRecords mem i n N dec
          = .error (.outOfBound i (wadd i (wmul n N)))) := by
    intro N α dec hprod
    have hm : wmul n N = n * N := wmul_small _ _ hprod
    constructor
    · intro hb
      have hok : i ≤ wadd i (wmul n N) ∧ wadd i (wmul n N) ≤ mem.length := by
        rw [hm]
        exact (wcheck_iff i (n * N) mem.length hi (by omega) hl).mpr hb
      exact ⟨(chunks N ((mem.drop i).take (wadd i (wmul n N) - i))).map dec,
        by simp [getRecords, hok]⟩
    · intro hb
      have hfail : ¬(i ≤ wadd i (wmul n N) ∧ wadd i (wmul n N) ≤ mem.length) := by
        intro hcc
        rw [hm] at hcc
        have := (wcheck_iff i (n * N) mem.length hi (by omega) hl).mp hcc
        omega
      simp [getRecords, hfail]
  have hgetrecCheck : ∀ (N : Nat) (α : Type) (dec : List Nat → α)
      (x : List α), getRecords mem i n N dec = .ok x →
      i ≤ wadd i (wmul n N) ∧ wadd i (wmul n N) ≤ mem.length := by
    intro N α dec x hx
    by_cases hc : i ≤ wadd i (wmul n N) ∧ wadd i (wmul n N) ≤ mem.length
    · exact hc
    · simp [getRecords, hc] at hx
  refine ⟨?_, ?_, ?_, ?_, ?_, ?_, ?_, ?_, ?_, ?_, ?_, ?_, ?_, ?_, ?_, ?_, ?_, ?_,
    ?_, ?_, ?_, ?_, ?_, ?_, ?_, ?_, ?_, ?_, ?_, ?_, ?_, ?_, ?_, ?_, ?_, ?_, ?_,
    ?_, ?_, ?_, ?_, ?_, ?_, ?_, ?_, ?_, ?_, ?_, ?_, ?_⟩
  · intro h
    have he : wadd i n = i + n := wadd_small _ _ (by omega)
    have hok : i ≤ wadd i n ∧ wadd i n ≤ mem.length :=
      (wcheck_iff i n mem.length hi hn hl).mpr h
    simp [read_memory, hok, he, Nat.add_sub_cancel_left, h]
  · intro h
    have hfail : ¬(i ≤ wadd i n ∧ wadd i n ≤ mem.length) := by
      intro hcc
      have := (wcheck_iff i n mem.length hi hn hl).mp hcc
      omega
    simp [read_memory, hfail]
  · intro h
    exact write_memory_ok mem repl i hl h
  · intro h
    have hfail : ¬(i ≤ wadd i repl.length ∧ wadd i repl.length ≤ mem.length) := by
      intro hcc
      have := (wcheck_iff i repl.length mem.length hi hrepl hl).mp hcc
      omega
    simp [write_memory, hfail]
  · exact (hget 1 (by decide)).1
  · exact (hget 1 (by decide)).2
  · exact (hput 1 (v % 2 ^ 8) (by decide)).1
  · exact (hput 1 (v % 2 ^ 8) (by decide)).2
  · exact (hget 2 (by decide)).1
  · exact (hget 2 (by decide)).2
  · exact (hput 2 (v % 2 ^ 16) (by decide)).1
  · exact (hput 2 (v % 2 ^ 16) (by decide)).2
  · exact (hget 4 (by decide)).1
  · exact (hget 4 (by decide)).2
  · exact (hput 4 (v % 2 ^ 32) (by decide)).1
  · exact (hput 4 (v % 2 ^ 32) (by decide)).2
  · exact (hget 8 (by decide)).1
  · exact (hget 8 (by decide)).2
  · exact (hput 8 (v % 2 ^ 64) (by decide)).1
  · exact (hput 8 (v % 2 ^ 64) (by decide)).2
  · exact (hget 4 (by decide)).1
  · exact (hget 4 (by decide)).2
  · exact (hput 4 (v % 2 ^ 32) (by decide)).1
  · exact (hput 4 (v % 2 ^ 32) (by decide)).2
  · exact (hget 8 (by decide)).1
  · exact (hget 8 (by decide)).2
  · exact (hput 8 (v % 2 ^ 64) (by decide)).1
  · exact (hput 8 (v % 2 ^ 64) (by decide)).2
  · intro hb
    match pd with
    | .bytes w =>
      simp only [pdCount, pdSize, Nat.mul_one] at hb hpd ⊢
      have he : wadd i w.length = i + w.length := wadd_small _ _ (by omega)
      have hok : i ≤ wadd i w.length ∧ wadd i w.length ≤ mem.length := by
        rw [he]
        exact ⟨Nat.le_add_right _ _, hb⟩
      obtain ⟨hlen, ht, _, hd⟩ := spliceFacts mem w i hb
      refine ⟨mem.take i ++ w ++ mem.drop (i + w.length), ?_, hlen, ht, hd⟩
      simp only [put_array]
      rw [if_pos hok, he]
    | .int32 w =>
      have h := (hputrec (pdRecords (.int32 w)) 4 (by decide)
        (pdRecords_size (.int32 w)) (by rw [pdRecords_count]; exact hpd)).1
      rw [pdRecords_count] at h
      exact h hb
    | .int64 w =>
      have h := (hputrec (pdRecords (.int64 w)) 8 (by decide)
        (pdRecords_size (.int64 w)) (by rw [pdRecords_count]; exact hpd)).1
      rw [pdRecords_count] at h
      exact h hb
    | .float32 w =>
      have h := (hputrec (pdRecords (.float32 w)) 4 (by decide)
        (pdRecords_size (.float32 w)) (by rw [pdRecords_count]; exact hpd)).1
      rw [pdRecords_count] at h
      exact h hb
    | .float64 w =>
      have h := (hputrec (pdRecords (.float64 w)) 8 (by decide)
        (pdRecords_size (.float64 w)) (by rw [pdRecords_count]; exact hpd)).1
      rw [pdRecords_count] at h
      exact h hb
    | .vector2 w =>
      have h := (hputrec (pdRecords (.vector2 w)) 8 (by decide)
        (pdRecords_size (.vector2 w)) (by rw [pdRecords_count]; exact hpd)).1
      rw [pdRecords_count] at h
      exact h hb
    | .vector3 w =>
      have h := (hputrec (pdRecords (.vector3 w)) 12 (by decide)
        (pdRecords_size (.vector3 w)) (by rw [pdRecords_count]; exact hpd)).1
      rw [pdRecords_count] at h
      exact h hb
    | .color w =>
      have h := (hputrec (pdRecords (.color w)) 16 (by decide)
        (pdRecords_size (.color w)) (by rw [pdRecords_count]; exact hpd)).1
      rw [pdRecords_count] at h
      exact h hb
  · intro hb
    match pd with
    | .bytes w =>
      simp only [pdCount, pdSize, Nat.mul_one] at hb hpd ⊢
      have hfail : ¬(i ≤ wadd i w.length ∧ wadd i w.length ≤ mem.length) := by
        intro hcc
        have := (wcheck_iff i w.length mem.length hi (by omega) hl).mp hcc
        omega
      have hmw : wmul w.length 1 = w.length := by
        rw [wmul, Nat.mul_one]
        exact Nat.mod_eq_of_lt (by omega)
      simp [put_array, hfail, hmw]
    | .int32 w =>
      have h := (hputrec (pdRecords (.int32 w)) 4 (by decide)
        (pdRecords_size (.int32 w)) (by rw [pdRecords_count]; exact hpd)).2
      rw [pdRecords_count] at h
      exact h hb
    | .int64 w =>
      have h := (hputrec (pdRecords (.int64 w)) 8 (by decide)
        (pdRecords_size (.int64 w)) (by rw [pdRecords_count]; exact hpd)).2
      rw [pdRecords_count] at h
      exact h hb
    | .float32 w =>
      have h := (hputrec (pdRecords (.float32 w)) 4 (by decide)
        (pdRecords_size (.float32 w)) (by rw [pdRecords_count]; exact hpd)).2
      rw [pdRecords_count] at h
      exact h hb
    | .float64 w =>
      have h := (hputrec (pdRecords (.float64 w)) 8 (by decide)
        (pdRecords_size (.float64 w)) (by rw [pdRecords_count]; exact hpd)).2
      rw [pdRecords_count] at h
      exact h hb
    | .vector2 w =>
      have h := (hputrec (pdRecords (.vector2 w)) 8 (by decide)
        (pdRecords_size (.vector2 w)) (by rw [pdRecords_count]; exact hpd)).2
      rw [pdRecords_count] at h
      exact h hb
    | .vector3 w =>
      have h := (hputrec (pdRecords (.vector3 w)) 12 (by decide)
        (pdRecords_size (.vector3 w)) (by rw [pdRecords_count]; exact hpd)).2
      rw [pdRecords_count] at h
      exact h hb
    | .color w =>
      have h := (hputrec (pdRecords (.color w)) 16 (by decide)
        (pdRecords_size (.color w)) (by rw [pdRecords_count]; exact hpd)).2
      rw [pdRecords_count] at h
      exact h hb
  · intro hb
    have hok : i ≤ wadd i n ∧ wadd i n ≤ mem.length :=
      (wcheck_iff i n mem.length hi hn hl).mpr hb
    exact ⟨.bytes ((mem.drop i).take (wadd i n - i)), by simp [get_array, hok]⟩
  · intro hb
    have hfail : ¬(i ≤ wadd i n ∧ wadd i n ≤ mem.length) := by
      intro hcc
      have := (wcheck_iff i n mem.length hi hn hl).mp hcc
      omega
    simp [get_array, hfail]
  · intro x hx
    by_cases hc : i ≤ wadd i n ∧ wadd i n ≤ mem.length
    · exact hc
    · simp [get_array, hc] at hx
  · intro hp hb
    obtain ⟨x, hx⟩ := (hgetrec 4 Nat leDecode hp).1 hb
    exact ⟨.int32 x, by simp [get_array, hx, Except.map]⟩
  · intro hp hb
    simp [get_array, (hgetrec 4 Nat leDecode hp).2 hb, Except.map]
  · intro hp hb
    obtain ⟨x, hx⟩ := (hgetrec 8 Nat leDecode hp).1 hb
    exact ⟨.int64 x, by simp [get_array, hx, Except.map]⟩
  · intro hp hb
    simp [get_array, (hgetrec 8 Nat leDecode hp).2 hb, Except.map]
  · intro hp hb
    obtain ⟨x, hx⟩ := (hgetrec 4 Nat leDecode hp).1 hb
    exact ⟨.float32 x, by simp [get_array, hx, Except.map]⟩
  · intro hp hb
    simp [get_array, (hgetrec 4 Nat leDecode hp).2 hb, Except.map]
  · intro hp hb
    obtain ⟨x, hx⟩ := (hgetrec 8 Nat leDecode hp).1 hb
    exact ⟨.float64 x, by simp [get_array, hx, Except.map]⟩
  · intro hp hb
    simp [get_array, (hgetrec 8 Nat leDecode hp).2 hb, Except.map]
  · intro hp hb
    obtain ⟨x, hx⟩ := (hgetrec 8 (Nat × Nat) decV2 hp).1 hb
    exact ⟨.vector2 x, by simp [get_array, hx, Except.map]⟩
  · intro hp hb
    simp [get_array, (hgetrec 8 (Nat × Nat) decV2 hp).2 hb, Except.map]
  · intro hp hb
    obtain ⟨x, hx⟩ := (hgetrec 12 (Nat × Nat × Nat) decV3 hp).1 hb
    exact ⟨.vector3 x, by simp [get_array, hx, Except.map]⟩
  · intro hp hb
    simp [get_array, (hgetrec 12 (Nat × Nat × Nat) decV3 hp).2 hb, Except.map]
  · intro hp hb
    obtain ⟨x, hx⟩ := (hgetrec 16 (Nat × Nat × Nat × Nat) decColor hp).1 hb
    exact ⟨.color x, by simp [get_array, hx, Except.map]⟩
  · intro hp hb
    simp [get_array, (hgetrec 16 (Nat × Nat × Nat × Nat) decColor hp).2 hb,
      Except.map]
  · intro x hx
    simp only [get_array] at hx
    norm_num at hx
    cases hgr : getRecords mem i n 16 decColor with
    | error e =>
      rw [hgr] at hx
      simp [Except.map] at hx
    | ok y => exact hgetrecCheck 16 (Nat × Nat × Nat × Nat) decColor y hgr
  · intro h1 h2
    simp only [List.mem_cons, List.not_mem_nil, or_false] at h2
    push_neg at h2
    obtain ⟨h29, h30, h31, h32, h33, h35, h36, h37⟩ := h2
    simp [get_array, h29, h30, h31, h32, h33, h35, h36, h37, h1]
  · intro h1
    have h2 : ¬ t ≤ 37 := Int.not_le.mpr h1
    have h29 : t ≠ 29 := by omega
    have h30 : t ≠ 30 := by omega
    have h31 : t ≠ 31 := by omega
    have h32 : t ≠ 32 := by omega
    have h33 : t ≠ 33 := by omega
    have h35 : t ≠ 35 := by omega
    have h36 : t ≠ 36 := by omega
    have h37 : t ≠ 37 := by omega
    simp [get_array, h2, h29, h30, h31, h32, h33, h35, h36, h37]

/-- C4 witness: concrete operations on an 8-byte memory, discharging the
usize-domain hypotheses. A 4-byte read at offset 6 fails with the explicit
range error; put_16 at offset 3 succeeds and leaves all other bytes
unchanged; a 2-element 4-byte-record get_array needs exactly 8 bytes; bad
type ids fail with the type errors. -/
theorem c4_witness :
    read_memory [0, 1, 2, 3, 4, 5, 6, 7] 6 4 = .error (.outOfBound 6 10)
    ∧ (∃ r, write_memory [0, 1, 2, 3, 4, 5, 6, 7] 3 [9, 9] = .ok r
        ∧ r.length = 8
        ∧ r.take 3 = [0, 1, 2]
        ∧ (r.drop 3).take 2 = [9, 9]
        ∧ r.drop 5 = [5, 6, 7])
    ∧ (∃ x, get_array [0, 1, 2, 3, 4, 5, 6, 7] 0 2 30 = .ok x)
    ∧ get_array [0, 1, 2, 3, 4, 5, 6, 7] 1 2 30 = .error (.outOfBound 1 9)
    ∧ get_array [0, 1, 2, 3, 4, 5, 6, 7] 0 2 34 = .error (.unsupportedType 34)
    ∧ get_array [0, 1, 2, 3, 4, 5, 6, 7] 0 2 38 = .error (.unknownType 38) := by
  refine ⟨?_, ?_, ?_, ?_, ?_, ?_⟩
  · have h := (c4_memory_bounds [0, 1, 2, 3, 4, 5, 6, 7] 6 4 [] 0 (.bytes []) 0
      (by decide) (by decide) (by decide) (by decide) (by decide)).2.1 (by decide)
    simpa [wadd, USIZE] using h
  · have h := (c4_memory_bounds [0, 1, 2, 3, 4, 5, 6, 7] 3 0 [9, 9] 0
      (.bytes []) 0 (by decide) (by decide) (by decide) (by decide)
      (by decide)).2.2.1 (by decide)
    obtain ⟨r, hr, hl, ht, hw, hd⟩ := h
    exact ⟨r, hr, by simpa using hl, by simpa using ht, by simpa using hw,
      by simpa using hd⟩
  · exact (c4_memory_bounds [0, 1, 2, 3, 4, 5, 6, 7] 0 2 [] 0 (.bytes [])
      0 (by decide) (by decide) (by decide) (by decide)
      (by decide)).2.2.2.2.2.2.2.2.2.2.2.2.2.2.2.2.2.2.2.2.2.2.2.2.2.2.2.2.2.2.2.2.2.1
      (by decide) (by decide)
  · have h := (c4_memory_bounds [0, 1, 2, 3, 4, 5, 6, 7] 1 2 [] 0 (.bytes [])
      0 (by decide) (by decide) (by decide) (by decide)
      (by decide)).2.2.2.2.2.2.2.2.2.2.2.2.2.2.2.2.2.2.2.2.2.2.2.2.2.2.2.2.2.2.2.2.2.2.1
      (by decide) (by decide)
    simpa [wadd, wmul, USIZE] using h
  · exact (c4_memory_bounds [0, 1, 2, 3, 4, 5, 6, 7] 0 2 [] 0 (.bytes [])
      34 (by decide) (by decide) (by decide) (by decide)
      (by decide)).2.2.2.2.2.2.2.2.2.2.2.2.2.2.2.2.2.2.2.2.2.2.2.2.2.2.2.2.2.2.2.2.2.2.2.2.2.2.2.2.2.2.2.2.2.2.2.2.1
      (by decide) (by decide)
  · exact (c4_memory_bounds [0, 1, 2, 3, 4, 5, 6, 7] 0 2 [] 0 (.bytes [])
      38 (by decide) (by decide) (by decide) (by decide)
      (by decide)).2.2.2.2.2.2.2.2.2.2.2.2.2.2.2.2.2.2.2.2.2.2.2.2.2.2.2.2.2.2.2.2.2.2.2.2.2.2.2.2.2.2.2.2.2.2.2.2.2
      (by decide)

/-- C8: for every packed-array element type (the operations are generic in
the element codec), get fails with the out-of-bound error exactly when the
index is at or past the length and otherwise returns the selected element;
slice and subarray take half-open ranges and fail with the out-of-bound
error, never clamping, whenever the range does not lie within the array,
and in-range calls return exactly the selected elements. -/
theorem c8_packed_array_bounds (α β : Type) (conv : α → β) (v : List α)
    (i b e : Nat) :
    (∀ h : i < v.length, pa_get true conv v i = .ok (conv (v.get ⟨i, h⟩)))
    ∧ (v.length ≤ i → pa_get true conv v i = .error .outOfBound)
    ∧ (b ≤ e → e ≤ v.length →
      pa_slice true conv v b e = .ok (((v.drop b).take (e - b)).map conv))
    ∧ (¬(b ≤ e ∧ e ≤ v.length) → pa_slice true conv v b e = .error .outOfBound)
    ∧ (b ≤ e → e ≤ v.length →
      pa_subarray true v b e = .ok ((v.drop b).take (e - b)))
    ∧ (¬(b ≤ e ∧ e ≤ v.length) → pa_subarray true v b e = .error .outOfBound) := by
  refine ⟨?_, ?_, ?_, ?_, ?_, ?_⟩
  · intro h
    simp [pa_get, List.getElem?_eq_getElem h]
  · intro h
    simp [pa_get, List.getElem?_eq_none h]
  · intro h1 h2
    simp [pa_slice, sliceRange, h1, h2]
  · intro h
    simp [pa_slice, sliceRange, h]
  · intro h1 h2
    simp [pa_subarray, sliceRange, h1, h2]
  · intro h
    simp [pa_subarray, sliceRange, h]

/-- C8 witness: the spec example on an array of length 5. The range three to
seven fails for get (index 5), slice and subarray with the out-of-bound
error; the range two to five succeeds and returns exactly the last three
elements. -/
theorem c8_witness :
    pa_slice true (fun x : Nat => x) [10, 11, 12, 13, 14] 2 5 = .ok [12, 13, 14]
    ∧ pa_slice true (fun x : Nat => x) [10, 11, 12, 13, 14] 3 7 = .error .outOfBound
    ∧ pa_subarray true [10, 11, 12, 13, 14] 2 5 = .ok [12, 13, 14]
    ∧ pa_subarray true [10, 11, 12, 13, 14] 3 7 = .error .outOfBound
    ∧ pa_get true (fun x : Nat => x) [10, 11, 12, 13, 14] 5 = .error .outOfBound := by
  refine ⟨?_, ?_, ?_, ?_, ?_⟩
  · have h := (c8_packed_array_bounds Nat Nat (fun x => x) [10, 11, 12, 13, 14]
      0 2 5).2.2.1 (by decide) (by decide)
    simpa using h
  · exact (c8_packed_array_bounds Nat Nat (fun x => x) [10, 11, 12, 13, 14]
      0 3 7).2.2.2.1 (by decide)
  · have h := (c8_packed_array_bounds Nat Nat (fun x => x) [10, 11, 12, 13, 14]
      0 2 5).2.2.2.2.1 (by decide) (by decide)
    simpa using h
  · exact (c8_packed_array_bounds Nat Nat (fun x => x) [10, 11, 12, 13, 14]
      0 3 7).2.2.2.2.2 (by decide)
  · exact (c8_packed_array_bounds Nat Nat (fun x => x) [10, 11, 12, 13, 14]
      5 0 0).2.1 (by decide)

/-- C9: for every supported packed-array element type, converting a wire
sequence with from and back with to yields the original sequence: the plain
arms store the elements directly, and the converting arms apply inverse
field-by-field projections. -/
theorem c9_from_to_roundtrip :
    (∀ s : List Nat, byte_array_to (byte_array_from s) = s)
    ∧ (∀ s : List Int, int32_array_to (int32_array_from s) = s)
    ∧ (∀ s : List Int, int64_array_to (int64_array_from s) = s)
    ∧ (∀ s : List Nat, float32_array_to (float32_array_from s) = s)
    ∧ (∀ s : List Nat, float64_array_to (float64_array_from s) = s)
    ∧ (∀ s : List WireVector2, vector2_array_to (vector2_array_from s) = s)
    ∧ (∀ s : List WireVector3, vector3_array_to (vector3_array_from s) = s)
    ∧ (∀ s : List WireColor, color_array_to (color_array_from s) = s)
    ∧ (∀ s : List String, string_array_to (string_array_from s) = s) := by
  refine ⟨fun s => rfl, fun s => rfl, fun s => rfl, fun s => rfl, fun s => rfl,
    ?_, ?_, ?_, ?_⟩
  · intro s
    induction s with
    | nil => rfl
    | cons a t ih =>
      simp only [vector2_array_from, vector2_array_to, List.map_cons] at ih ⊢
      exact congrArg (List.cons a) ih
  · intro s
    induction s with
    | nil => rfl
    | cons a t ih =>
      simp only [vector3_array_from, vector3_array_to, List.map_cons] at ih ⊢
      exact congrArg (List.cons a) ih
  · intro s
    induction s with
    | nil => rfl
    | cons a t ih =>
      simp only [color_array_from, color_array_to, List.map_cons] at ih ⊢
      exact congrArg (List.cons a) ih
  · intro s
    induction s with
    | nil => rfl
    | cons a t ih =>
      simp only [string_array_from, string_array_to, List.map_cons] at ih ⊢
      exact congrArg (List.cons a) ih

/-- C10: refuted by the code. register_functions registers the pair
(OBJREGISTRY_MODULE, array.len) twice; on a fresh linker, where shadowing is
disallowed, the second func_wrap fails and its unwrap panics, so the
registration as a whole aborts, and the defined-pair list is not
duplicate-free. -/
theorem c10_register_functions_panics :
    register_functions false [] = none
    ∧ ¬ objregistryArrayNames.Nodup := by
  constructor
  · decide
  · decide

/-- C1: import resolution follows the strict priority order of the loop of
instantiate_wasm. A host-table hit wins outright, a host-table error aborts;
otherwise the bridge namespaces are consulted, and resolve exactly when the
matching binding mode is configured, the namespace is the reserved one and
the bridge knows the name; otherwise the wasi linker; otherwise the
dependency table, whose misses (no provider namespace, or provider lacking
the export) produce the unknown-import error naming the unresolved
namespace and name; a resolution error of the first failing import aborts
the whole instantiation with that error, and an instantiation that fails
produces no instance. -/
theorem c1_import_resolution_priority (ctx : LinkCtx)
    (recur : ModuleSpec → InstState → Except InstErr (InstanceW × InstState))
    (m : ModuleSpec) (i : ImportDecl) (st : InstState) (fuel : Nat) :
    (∀ v, tryHost ctx i = .ok (some v) →
      resolveOneF ctx recur m i st = .ok (v, st))
    ∧ (tryHost ctx i = .error () →
      resolveOneF ctx recur m i st = .error .hostError)
    ∧ (i.module = OBJREGISTRY_MODULE → ctx.extern_bind = .registry →
      tryBridge ctx i
        = (if ctx.objregistryFun i.name then some (.objreg i.name) else none))
    ∧ (i.module = EXTERNREF_MODULE → ctx.extern_bind = .native →
      tryBridge ctx i
        = (if ctx.externrefFun i.name then some (.extref i.name) else none))
    ∧ (ctx.extern_bind = .disabled → tryBridge ctx i = none)
    ∧ (i.module ≠ OBJREGISTRY_MODULE → i.module ≠ EXTERNREF_MODULE →
      tryBridge ctx i = none)
    ∧ (∀ v, tryHost ctx i = .ok none → tryBridge ctx i = some v →
      resolveOneF ctx recur m i st = .ok (v, st))
    ∧ (∀ v, tryHost ctx i = .ok none → tryBridge ctx i = none →
      tryWasi ctx i = some v → resolveOneF ctx recur m i st = .ok (v, st))
    ∧ (tryHost ctx i = .ok none → tryBridge ctx i = none → tryWasi ctx i = none →
      resolveOneF ctx recur m i st = resolveDepOrFailF recur m i st)
    ∧ (depLookup m.deps i.module = none →
      resolveDepOrFailF recur m i st = .error (.unknownImport i.module i.name))
    ∧ (∀ d inst, depLookup m.deps i.module = some d →
      alookup st.memo d.id = some inst → i.name ∉ inst.exports →
      resolveDepOrFailF recur m i st = .error (.unknownImport i.module i.name))
    ∧ (∀ d inst st1, depLookup m.deps i.module = some d →
      alookup st.memo d.id = none → recur d st = .ok (inst, st1) →
      i.name ∉ inst.exports →
      resolveDepOrFailF recur m i st = .error (.unknownImport i.module i.name))
    ∧ (∀ e rest, resolveOneF ctx recur m i st = .error e →
      resolveImportsF ctx recur m (i :: rest) st = .error e)
    ∧ (∀ e, m.core = true →
      resolveImportsF ctx (fun d st2 => instantiateWasm ctx fuel d st2)
        m m.imports st = .error e →
      instantiateWasm ctx (fuel + 1) m st = .error e)
    ∧ (∀ e r st2, instantiateWasm ctx (fuel + 1) m st = .error e →
      instantiateWasm ctx (fuel + 1) m st ≠ .ok (r, st2)) := by
  refine ⟨?_, ?_, ?_, ?_, ?_, ?_, ?_, ?_, ?_, ?_, ?_, ?_, ?_, ?_, ?_⟩
  · intro v h
    simp [resolveOneF, h]
  · intro h
    simp [resolveOneF, h]
  · intro h1 h2
    simp [tryBridge, h1, h2]
  · intro h1 h2
    by_cases hob : i.module = OBJREGISTRY_MODULE
    · rw [h1] at hob
      exact absurd hob (by decide)
    · simp [tryBridge, hob, h1, h2]
  · intro h
    simp [tryBridge, h]
  · intro h1 h2
    simp [tryBridge, h1, h2]
  · intro v h1 h2
    simp [resolveOneF, h1, h2]
  · intro v h1 h2 h3
    simp [resolveOneF, h1, h2, h3]
  · intro h1 h2 h3
    simp [resolveOneF, h1, h2, h3]
  · intro h
    simp [resolveDepOrFailF, h]
  · intro d inst h1 h2 h3
    simp [resolveDepOrFailF, h1, h2, h3]
  · intro d inst st1 h1 h2 h3 h4
    simp [resolveDepOrFailF, h1, h2, h3, h4]
  · intro e rest h
    simp [resolveImportsF, h]
  · intro e hcore h
    simp [instantiateWasm, hcore, h]
  · intro e r st2 h
    rw [h]
    simp

/-- C1 witness: a host-table hit resolves first; a registry-bridge name
resolves when the registry binding is configured; an import with no source
yields the unknown-import error naming it; the error aborts a whole
instantiation, producing no instance. -/
theorem c1_witness :
    resolveOneF
      (LinkCtx.mk .disabled (some (fun ns nm => .ok (some (.hostFn ns nm))))
        (fun _ => false) (fun _ => false) none)
      (fun _ _ => .error .outOfFuel) (ModuleSpec.mk 0 true [] [] [])
      (ImportDecl.mk "env" "f") initialInstState
      = .ok (.hostFn "env" "f", initialInstState)
    ∧ resolveOneF
      (LinkCtx.mk .registry none (fun _ => true) (fun _ => false) none)
      (fun _ _ => .error .outOfFuel) (ModuleSpec.mk 0 true [] [] [])
      (ImportDecl.mk OBJREGISTRY_MODULE "array.len") initialInstState
      = .ok (.objreg "array.len", initialInstState)
    ∧ resolveDepOrFailF (fun _ _ => .error .outOfFuel)
      (ModuleSpec.mk 0 true [] [] []) (ImportDecl.mk "env" "g") initialInstState
      = .error (.unknownImport "env" "g")
    ∧ instantiateWasm
      (LinkCtx.mk .disabled none (fun _ => false) (fun _ => false) none) 1
      (ModuleSpec.mk 0 true [ImportDecl.mk "env" "g"] [] []) initialInstState
      = .error (.unknownImport "env" "g") := by
  refine ⟨?_, ?_, ?_, ?_⟩
  · exact (c1_import_resolution_priority _ _ _ _ _ 0).1 (.hostFn "env" "f") rfl
  · exact (c1_import_resolution_priority _ _ _ _ _ 0).2.2.2.2.2.2.1
      (.objreg "array.len") rfl (by decide)
  · exact (c1_import_resolution_priority
      (LinkCtx.mk .disabled none (fun _ => false) (fun _ => false) none)
      (fun _ _ => .error .outOfFuel) (ModuleSpec.mk 0 true [] [] [])
      (ImportDecl.mk "env" "g") initialInstState 0).2.2.2.2.2.2.2.2.2.1 rfl
  · exact (c1_import_resolution_priority
      (LinkCtx.mk .disabled none (fun _ => false) (fun _ => false) none)
      (fun _ _ => .error .outOfFuel)
      (ModuleSpec.mk 0 true [ImportDecl.mk "env" "g"] [] [])
      (ImportDecl.mk "env" "g") initialInstState 0).2.2.2.2.2.2.2.2.2.2.2.2.2.1
      (.unknownImport "env" "g") rfl rfl

/-! Helper lemmas for the instantiation memo. -/

theorem memoExt_refl (scope : List Nat) (st : InstState) : MemoExt scope st st :=
  ⟨[], rfl, List.nodup_nil, by simp [memoKeys]⟩

theorem memoExt_trans (scope : List Nat) (st1 st2 st3 : InstState)
    (h1 : MemoExt scope st1 st2) (h2 : MemoExt scope st2 st3) :
    MemoExt scope st1 st3 := by
  obtain ⟨n1, e1, nd1, hk1⟩ := h1
  obtain ⟨n2, e2, nd2, hk2⟩ := h2
  refine ⟨n2 ++ n1, by rw [e2, e1, List.append_assoc], ?_, ?_⟩
  · rw [memoKeys, List.map_append]
    refine List.Nodup.append nd2 nd1 ?_
    intro k hk2m hk1m
    have h3 := (hk2 k hk2m).2
    rw [e1] at h3
    exact h3 (by rw [memoKeys, List.map_append]; exact List.mem_append_left _ hk1m)
  · intro k hk
    rw [memoKeys, List.map_append] at hk
    rcases List.mem_append.mp hk with hka | hkb
    · refine ⟨(hk2 k hka).1, ?_⟩
      have h3 := (hk2 k hka).2
      rw [e1] at h3
      intro hmem
      exact h3 (by rw [memoKeys, List.map_append]; exact List.mem_append_right _ hmem)
    · exact hk1 k hkb

theorem depLookup_id_mem (deps : List (String × ModuleSpec)) (ns : String)
    (d : ModuleSpec) (h : depLookup deps ns = some d) : d.id ∈ subIdsList deps := by
  induction deps with
  | nil => simp [depLookup] at h
  | cons p r ih =>
    obtain ⟨ns0, d0⟩ := p
    simp only [depLookup] at h
    split at h
    · injection h with h2
      subst h2
      simp [subIdsList]
    · have h3 := ih h
      simp only [subIdsList, List.mem_cons, List.mem_append]
      exact Or.inr (Or.inr h3)

theorem depLookup_sub_mem (deps : List (String × ModuleSpec)) (ns : String)
    (d : ModuleSpec) (h : depLookup deps ns = some d) :
    ∀ x ∈ subIds d, x ∈ subIdsList deps := by
  induction deps with
  | nil => simp [depLookup] at h
  | cons p r ih =>
    obtain ⟨ns0, d0⟩ := p
    simp only [depLookup] at h
    split at h
    · injection h with h2
      subst h2
      intro x hx
      simp only [subIdsList, List.mem_cons, List.mem_append]
      exact Or.inr (Or.inl hx)
    · intro x hx
      have h3 := ih h x hx
      simp only [subIdsList, List.mem_cons, List.mem_append]
      exact Or.inr (Or.inr h3)

theorem subIds_eq_deps (m : ModuleSpec) : subIds m = subIdsList m.deps := by
  cases m
  rfl

theorem acyclicb_parts (m : ModuleSpec) (hac : acyclicb m = true) :
    m.id ∉ subIds m ∧ acyclicbList m.deps = true := by
  cases m with
  | mk i c im deps e =>
    simp only [acyclicb, Bool.and_eq_true, Bool.not_eq_true',
      decide_eq_false_iff_not] at hac
    exact ⟨hac.1, hac.2⟩

theorem acyclicbList_lookup (deps : List (String × ModuleSpec)) (ns : String)
    (d : ModuleSpec) (hl : acyclicbList deps = true)
    (h : depLookup deps ns = some d) : acyclicb d = true := by
  induction deps with
  | nil => simp [depLookup] at h
  | cons p r ih =>
    obtain ⟨ns0, d0⟩ := p
    simp only [acyclicbList, Bool.and_eq_true] at hl
    simp only [depLookup] at h
    split at h
    · injection h with h2
      subst h2
      exact hl.1
    · exact ih hl.2 h

theorem alookup_none_iff (memo : List (Nat × InstanceW)) (k : Nat) :
    alookup memo k = none ↔ k ∉ memoKeys memo := by
  induction memo with
  | nil => simp [alookup, memoKeys]
  | cons p r ih =>
    obtain ⟨k0, v0⟩ := p
    by_cases hk : k0 = k
    · subst hk
      simp [alookup, memoKeys]
    · simp [alookup, memoKeys, hk, Ne.symm hk] at ih ⊢
      simpa [memoKeys] using ih

theorem memoKeys_functional (memo : List (Nat × InstanceW)) :
    (memoKeys memo).Nodup → ∀ (k : Nat) (a b : InstanceW),
    (k, a) ∈ memo → (k, b) ∈ memo → a = b := by
  induction memo with
  | nil =>
    intro _ k a b ha _
    simp at ha
  | cons p r ih =>
    intro hnd k a b ha hb
    obtain ⟨k0, v0⟩ := p
    simp only [memoKeys, List.map_cons, List.nodup_cons] at hnd
    rcases List.mem_cons.mp ha with ha0 | har
    · rcases List.mem_cons.mp hb with hb0 | hbr
      · rw [Prod.mk.injEq] at ha0 hb0
        rw [ha0.2, hb0.2]
      · exfalso
        apply hnd.1
        rw [Prod.mk.injEq] at ha0
        rw [← ha0.1]
        exact List.mem_map.mpr ⟨(k, b), hbr, rfl⟩
    · rcases List.mem_cons.mp hb with hb0 | hbr
      · exfalso
        apply hnd.1
        rw [Prod.mk.injEq] at hb0
        rw [← hb0.1]
        exact List.mem_map.mpr ⟨(k, a), har, rfl⟩
      · exact ih hnd.2 k a b har hbr

/-- Every successful run of the instantiator extends the memo only with
fresh, pairwise-distinct identities of strict dependency descendants. The
statement is proved simultaneously for the four mutually-calling resolver
functions, by induction on fuel. -/
theorem instantiate_memoExt (ctx : LinkCtx) : ∀ fuel : Nat,
    (∀ (S : ModuleSpec) (st : InstState) (r : InstanceW) (st2 : InstState),
      acyclicb S = true → instantiateWasm ctx fuel S st = .ok (r, st2) →
      MemoExt (subIds S) st st2)
    ∧ (∀ (m : ModuleSpec) (i : ImportDecl) (st : InstState) (r : ExternVal)
        (st2 : InstState), acyclicb m = true →
      resolveDepOrFailF (fun d st3 => instantiateWasm ctx fuel d st3) m i st
        = .ok (r, st2) →
      MemoExt (subIds m) st st2)
    ∧ (∀ (m : ModuleSpec) (i : ImportDecl) (st : InstState) (r : ExternVal)
        (st2 : InstState), acyclicb m = true →
      resolveOneF ctx (fun d st3 => instantiateWasm ctx fuel d st3) m i st
        = .ok (r, st2) →
      MemoExt (subIds m) st st2)
    ∧ (∀ (m : ModuleSpec) (l : List ImportDecl) (st : InstState)
        (r : List ExternVal) (st2 : InstState), acyclicb m = true →
      resolveImportsF ctx (fun d st3 => instantiateWasm ctx fuel d st3) m l st
        = .ok (r, st2) →
      MemoExt (subIds m) st st2) := by
  intro fuel
  induction fuel with
  | zero =>
    have hInst : ∀ (S : ModuleSpec) (st : InstState) (r : InstanceW)
        (st2 : InstState), acyclicb S = true →
        instantiateWasm ctx 0 S st = .ok (r, st2) → MemoExt (subIds S) st st2 := by
      intro S st r st2 _ h
      simp [instantiateWasm] at h
    have hDep : ∀ (m : ModuleSpec) (i : ImportDecl) (st : InstState)
        (r : ExternVal) (st2 : InstState), acyclicb m = true →
        resolveDepOrFailF (fun d st3 => instantiateWasm ctx 0 d st3) m i st
          = .ok (r, st2) → MemoExt (subIds m) st st2 := by
      intro m i st r st2 hac h
      simp only [resolveDepOrFailF] at h
      split at h
      · simp at h
      · split at h
        · split at h
          · simp only [Except.ok.injEq, Prod.mk.injEq] at h
            obtain ⟨_, rfl⟩ := h
            exact memoExt_refl _ _
          · simp at h
        · split at h
          · simp at h
          · rename_i inst st1 hrec
            simp [instantiateWasm] at hrec
    have hOne : ∀ (m : ModuleSpec) (i : ImportDecl) (st : InstState)
        (r : ExternVal) (st2 : InstState), acyclicb m = true →
        resolveOneF ctx (fun d st3 => instantiateWasm ctx 0 d st3) m i st
          = .ok (r, st2) → MemoExt (subIds m) st st2 := by
      intro m i st r st2 hac h
      simp only [resolveOneF] at h
      split at h
      · simp at h
      · simp only [Except.ok.injEq, Prod.mk.injEq] at h
        obtain ⟨_, rfl⟩ := h
        exact memoExt_refl _ _
      · split at h
        · simp only [Except.ok.injEq, Prod.mk.injEq] at h
          obtain ⟨_, rfl⟩ := h
          exact memoExt_refl _ _
        · split at h
          · simp only [Except.ok.injEq, Prod.mk.injEq] at h
            obtain ⟨_, rfl⟩ := h
            exact memoExt_refl _ _
          · exact hDep m i st r st2 hac h
    have hImp : ∀ (m : ModuleSpec) (l : List ImportDecl) (st : InstState)
        (r : List ExternVal) (st2 : InstState), acyclicb m = true →
        resolveImportsF ctx (fun d st3 => instantiateWasm ctx 0 d st3) m l st
          = .ok (r, st2) → MemoExt (subIds m) st st2 := by
      intro m l
      induction l with
      | nil =>
        intro st r st2 _ h
        simp only [resolveImportsF, Except.ok.injEq, Prod.mk.injEq] at h
        obtain ⟨_, rfl⟩ := h
        exact memoExt_refl _ _
      | cons a rest ihl =>
        intro st r st2 hac h
        simp only [resolveImportsF] at h
        split at h
        · simp at h
        · rename_i v st1 h1
          split at h
          · simp at h
          · rename_i vs st3 h2
            simp only [Except.ok.injEq, Prod.mk.injEq] at h
            obtain ⟨_, rfl⟩ := h
            exact memoExt_trans _ st st1 st3 (hOne m a st v st1 hac h1)
              (ihl st1 vs st3 hac h2)
    exact ⟨hInst, hDep, hOne, hImp⟩
  | succ g ih =>
    obtain ⟨ihInst, ihDep, ihOne, ihImp⟩ := ih
    have hInst : ∀ (S : ModuleSpec) (st : InstState) (r : InstanceW)
        (st2 : InstState), acyclicb S = true →
        instantiateWasm ctx (g + 1) S st = .ok (r, st2) →
        MemoExt (subIds S) st st2 := by
      intro S st r st2 hac h
      simp only [instantiateWasm] at h
      split at h
      · split at h
        · simp at h
        · rename_i vs st1 hres
          simp only [Except.ok.injEq, Prod.mk.injEq] at h
          obtain ⟨_, rfl⟩ := h
          obtain ⟨new, hm, hnd, hk⟩ := ihImp S S.imports st vs st1 hac hres
          exact ⟨new, hm, hnd, hk⟩
      · simp at h
    have hDep : ∀ (m : ModuleSpec) (i : ImportDecl) (st : InstState)
        (r : ExternVal) (st2 : InstState), acyclicb m = true →
        resolveDepOrFailF (fun d st3 => instantiateWasm ctx (g + 1) d st3) m i st
          = .ok (r, st2) → MemoExt (subIds m) st st2 := by
      intro m i st r st2 hac h
      simp only [resolveDepOrFailF] at h
      split at h
      · simp at h
      · rename_i d hdl
        split at h
        · split at h
          · simp only [Except.ok.injEq, Prod.mk.injEq] at h
            obtain ⟨_, rfl⟩ := h
            exact memoExt_refl _ _
          · simp at h
        · rename_i hml
          split at h
          · simp at h
          · rename_i inst st1 hrec
            split at h
            · simp only [Except.ok.injEq, Prod.mk.injEq] at h
              obtain ⟨_, rfl⟩ := h
              have hacd : acyclicb d = true :=
                acyclicbList_lookup m.deps i.module d (acyclicb_parts m hac).2 hdl
              have hdnotin : d.id ∉ subIds d := (acyclicb_parts d hacd).1
              obtain ⟨new1, hmem, hnd, hks⟩ := hInst d st inst st1 hacd hrec
              refine ⟨(d.id, inst) :: new1, ?_, ?_, ?_⟩
              · simp only [List.cons_append]
                rw [hmem]
              · simp only [memoKeys, List.map_cons, List.nodup_cons]
                refine ⟨fun hmm => ?_, hnd⟩
                exact hdnotin ((hks d.id hmm).1)
              · intro k hkm
                simp only [memoKeys, List.map_cons, List.mem_cons] at hkm
                rw [subIds_eq_deps]
                rcases hkm with hk0 | hkr
                · subst hk0
                  refine ⟨depLookup_id_mem m.deps i.module d hdl, ?_⟩
                  exact (alookup_none_iff st.memo d.id).mp hml
                · have hb := hks k hkr
                  exact ⟨depLookup_sub_mem m.deps i.module d hdl k hb.1, hb.2⟩
            · simp at h
    have hOne : ∀ (m : ModuleSpec) (i : ImportDecl) (st : InstState)
        (r : ExternVal) (st2 : InstState), acyclicb m = true →
        resolveOneF ctx (fun d st3 => instantiateWasm ctx (g + 1) d st3) m i st
          = .ok (r, st2) → MemoExt (subIds m) st st2 := by
      intro m i st r st2 hac h
      simp only [resolveOneF] at h
      split at h
      · simp at h
      · simp only [Except.ok.injEq, Prod.mk.injEq] at h
        obtain ⟨_, rfl⟩ := h
        exact memoExt_refl _ _
      · split at h
        · simp only [Except.ok.injEq, Prod.mk.injEq] at h
          obtain ⟨_, rfl⟩ := h
          exact memoExt_refl _ _
        · split at h
          · simp only [Except.ok.injEq, Prod.mk.injEq] at h
            obtain ⟨_, rfl⟩ := h
            exact memoExt_refl _ _
          · exact hDep m i st r st2 hac h
    have hImp : ∀ (m : ModuleSpec) (l : List ImportDecl) (st : InstState)
        (r : List ExternVal) (st2 : InstState), acyclicb m = true →
        resolveImportsF ctx (fun d st3 => instantiateWasm ctx (g + 1) d st3) m l st
          = .ok (r, st2) → MemoExt (subIds m) st st2 := by
      intro m l
      induction l with
      | nil =>
        intro st r st2 _ h
        simp only [resolveImportsF, Except.ok.injEq, Prod.mk.injEq] at h
        obtain ⟨_, rfl⟩ := h
        exact memoExt_refl _ _
      | cons a rest ihl =>
        intro st r st2 hac h
        simp only [resolveImportsF] at h
        split at h
        · simp at h
        · rename_i v st1 h1
          split at h
          · simp at h
          · rename_i vs st3 h2
            simp only [Except.ok.injEq, Prod.mk.injEq] at h
            obtain ⟨_, rfl⟩ := h
            exact memoExt_trans _ st st1 st3 (hOne m a st v st1 hac h1)
              (ihl st1 vs st3 hac h2)
    exact ⟨hInst, hDep, hOne, hImp⟩

/-- C2: within a single instantiation call starting from the fresh memo,
every dependency module is instantiated at most once. On success, the memo
holds pairwise-distinct per-module identities (each identity was inserted
by exactly one instantiation of its module), so it maps every module
identity to one single instance, the one that every sibling importing that
module is linked against. The dependency graph is assumed to be a DAG, as
the data model requires. -/
theorem c2_dependency_instantiated_once (ctx : LinkCtx) (fuel : Nat)
    (S : ModuleSpec) (inst : InstanceW) (st2 : InstState)
    (hac : acyclicb S = true)
    (h : instantiateWasm ctx fuel S initialInstState = .ok (inst, st2)) :
    (memoKeys st2.memo).Nodup
    ∧ ∀ (id : Nat) (i1 i2 : InstanceW),
      (id, i1) ∈ st2.memo → (id, i2) ∈ st2.memo → i1 = i2 := by
  obtain ⟨new, hm, hnd, _⟩ :=
    (instantiate_memoExt ctx fuel).1 S initialInstState inst st2 hac h
  have hmemo : st2.memo = new := by simpa [initialInstState] using hm
  constructor
  · rw [hmemo]
    exact hnd
  · intro id i1 i2 h1 h2
    refine memoKeys_functional st2.memo ?_ id i1 i2 h1 h2
    rw [hmemo]
    exact hnd

/-- C2 witness: a diamond dependency. The root imports from siblings B and
C, which both import from the common module X (identity 3): the final memo
binds each module identity exactly once and X was instantiated a single
time, shared by both siblings. -/
theorem c2_witness :
    (memoKeys [(2, InstanceW.mk 2 ["h"]), (1, InstanceW.mk 1 ["g"]),
      (3, InstanceW.mk 0 ["f"])]).Nodup
    ∧ ∀ (id : Nat) (i1 i2 : InstanceW),
      (id, i1) ∈ [(2, InstanceW.mk 2 ["h"]), (1, InstanceW.mk 1 ["g"]),
        (3, InstanceW.mk 0 ["f"])] →
      (id, i2) ∈ [(2, InstanceW.mk 2 ["h"]), (1, InstanceW.mk 1 ["g"]),
        (3, InstanceW.mk 0 ["f"])] → i1 = i2 := by
  have h := c2_dependency_instantiated_once
    (LinkCtx.mk .disabled none (fun _ => false) (fun _ => false) none) 10
    (ModuleSpec.mk 0 true [ImportDecl.mk "b" "g", ImportDecl.mk "c" "h"]
      [("b", ModuleSpec.mk 1 true [ImportDecl.mk "x" "f"]
          [("x", ModuleSpec.mk 3 true [] [] ["f"])] ["g"]),
       ("c", ModuleSpec.mk 2 true [ImportDecl.mk "x" "f"]
          [("x", ModuleSpec.mk 3 true [] [] ["f"])] ["h"])] [])
    (InstanceW.mk 3 [])
    (InstState.mk [(2, InstanceW.mk 2 ["h"]), (1, InstanceW.mk 1 ["g"]),
      (3, InstanceW.mk 0 ["f"])] 4)
    (by decide) rfl
  exact h

end GodotWasm
